import Mathlib

/-!
Verification of the VulnCycleInsight parsing / rendering pipeline.

The definitions below are a shallow embedding of the TypeScript sources:
* `parser` module (`parseLifecycleStages`, `extractTitle`, `extractStageMetadata`),
* `renderer.ts` (`parseDate`, `extractTimeInfo`, `getPrimaryTimestamp`,
  `groupStagesByTime`, `parseSubsections`, `calculateStageCompletion`,
  `renderCompletionView`'s score computation, `updateLifecycleView`),
with JavaScript string/regex/date primitives distilled to executable Lean
functions.  Each regex used by the code is compiled by hand into an explicit
matcher implementing the exact backtracking semantics of the pattern.
-/

namespace VulnCycle

/-! ## JavaScript string primitives -/

/-- The character class of JavaScript's `\s` (and of `String.prototype.trim`),
restricted to the code points that can realistically occur in the documents
handled by this program: ASCII whitespace, NBSP, BOM and the ideographic space. -/
def isJsSpace (c : Char) : Bool :=
  c = ' ' || c = '\t' || c = '\n' || c = '\r' || c = '\x0B' || c = '\x0C' ||
  c = ' ' || c = '﻿' || c = '　'

/-- `trim` on a character list: drop `\s`-class characters from both ends. -/
def jsTrimList (cs : List Char) : List Char :=
  ((cs.dropWhile isJsSpace).reverse.dropWhile isJsSpace).reverse

/-- JavaScript `String.prototype.trim`. -/
def jsTrim (s : String) : String :=
  String.mk (jsTrimList s.toList)

/-- JavaScript `String.prototype.includes` (substring containment). -/
def containsSub (s sub : String) : Bool :=
  decide (sub.toList <:+: s.toList)

/-- ASCII lower-casing; models `String.prototype.toLowerCase` for the ASCII
keywords this code compares (CJK characters are case-invariant). -/
def jsToLower (s : String) : String :=
  String.mk (s.toList.map Char.toLower)

/-- `Math.round (a / b)` for natural `a` and positive natural `b`, computed
exactly on rationals: round-half-up equals `⌊(2a + b) / 2b⌋`. -/
def jsRoundDiv (a b : Nat) : Nat :=
  (2 * a + b) / (2 * b)

/-- Helper for `jsSplit`: accumulate the current chunk (reversed). -/
def splitOnCharGo (sep : Char) : List Char → List Char → List String
  | [], cur => [String.mk cur.reverse]
  | c :: rest, cur =>
    if c = sep then String.mk cur.reverse :: splitOnCharGo sep rest []
    else splitOnCharGo sep rest (c :: cur)

/-- JavaScript `String.prototype.split` with a one-character separator
(structurally recursive so that concrete inputs evaluate). -/
def jsSplit (s : String) (sep : Char) : List String :=
  splitOnCharGo sep s.toList []

/-- `lines.join('\n')`. -/
def joinLines : List String → String
  | [] => ""
  | [l] => l
  | l :: ls => l ++ "\n" ++ joinLines ls

/-- JavaScript `String.prototype.startsWith`. -/
def jsStartsWith (s pre : String) : Bool :=
  decide (pre.toList <+: s.toList)

/-- Concatenation of a string list. -/
def concatAll (ls : List String) : String :=
  ls.foldl (fun a b => a ++ b) ""

/-! ## Regex matchers

Each matcher implements one regex literal from the sources, with the exact
(greedy, backtracking) semantics of the JavaScript engine on that pattern. -/

/-- The `\s+(.+)$` tail shared by the heading regexes `^#\s+(.+)$`,
`^##\s+(.+)$` and `^(#{3,6})\s+(.+)$`: at least one whitespace character,
then a non-empty capture running to the end of the line.  Greedy `\s+` takes
the maximal whitespace run; if nothing follows it, backtracking gives the
last whitespace character to the capture (possible only when the run has
length ≥ 2). -/
def headingTailCapture? (rest : List Char) : Option (List Char) :=
  let k := (rest.takeWhile isJsSpace).length
  if k = 0 then none
  else if k < rest.length then some (rest.drop k)
  else if 2 ≤ k then some (rest.drop (k - 1))
  else none

/-- `line.match(/^##\s+(.+)$/)`: the captured group (untrimmed), if the line
is an h2 heading.  A third `#` is not `\s`, so `###`-headings do not match. -/
def h2MatchGroup? (line : String) : Option String :=
  match line.toList with
  | '#' :: '#' :: rest =>
    match rest with
    | c :: _ => if c = '#' then none else (headingTailCapture? rest).map String.mk
    | [] => none
  | _ => none

/-- `line.match(/^#\s+(.+)$/)`: the captured group for an h1 heading line. -/
def h1MatchGroup? (line : String) : Option String :=
  match line.toList with
  | '#' :: rest =>
    match rest with
    | c :: _ => if c = '#' then none else (headingTailCapture? rest).map String.mk
    | [] => none
  | _ => none

/-- `line.match(/^#\s+/)` as a boolean (used by the zero-stage fallback of
`renderLifecycleView` to skip the first document title line). -/
def h1Start (line : String) : Bool :=
  match line.toList with
  | '#' :: c :: _ => isJsSpace c
  | _ => false

/-- `line.match(/^---\s*$/)`: a front-matter delimiter is exactly three
dashes followed only by whitespace. -/
def fmDelim (line : String) : Bool :=
  match line.toList with
  | '-' :: '-' :: '-' :: rest => rest.all isJsSpace
  | _ => false

/-- `line.match(/^#{3,}\s+/)`: a sub-heading line of level ≥ 3 (the condition
that permanently stops metadata extraction).  The greedy `#{3,}` must consume
the whole leading hash run, after which a whitespace character must follow. -/
def subheadingStart (line : String) : Bool :=
  let cs := line.toList
  let hashes := cs.takeWhile (· = '#')
  3 ≤ hashes.length &&
    match cs.drop hashes.length with
    | c :: _ => isJsSpace c
    | [] => false

/-- The body of the bullet regexes after the leading `-`:
`\s*\*\*([^*]+)\*\*[：:]\s*(.+)$`.  Returns the two captured groups.
`[^*]+` cannot cross a `*`, so the label capture is the maximal star-free
run after the opening `**`; the closing `**` and one (ASCII or fullwidth)
colon must follow literally; the value capture is the rest of the line with
its maximal leading whitespace run removed (backtracking hands one
whitespace character to the capture when nothing else remains). -/
def bulletBodyMatch? (cs : List Char) : Option (String × String) :=
  let r1 := cs.dropWhile isJsSpace
  match r1 with
  | '*' :: '*' :: r3 =>
    let lbl := r3.takeWhile (· ≠ '*')
    if lbl.isEmpty then none
    else
      match r3.drop lbl.length with
      | '*' :: '*' :: c :: r6 =>
        if c = ':' || c = '：' then
          let k := (r6.takeWhile isJsSpace).length
          if k < r6.length then some (String.mk lbl, String.mk (r6.drop k))
          else if 1 ≤ k then some (String.mk lbl, String.mk (r6.drop (k - 1)))
          else none
        else none
      | _ => none
  | _ => none

/-- `line.match(/^-\s*\*\*([^*]+)\*\*[：:]\s*(.+)$/)` — the anchored metadata
bullet regex of `extractStageMetadata`. -/
def metaLineMatch? (line : String) : Option (String × String) :=
  match line.toList with
  | '-' :: rest => bulletBodyMatch? rest
  | _ => none

/-- Helper for the unanchored search: try the bullet pattern at every start
position, leftmost first (JavaScript `match` without `^`). -/
def bulletSearchGo : List Char → Option (String × String)
  | [] => none
  | '-' :: rest =>
    match bulletBodyMatch? rest with
    | some r => some r
    | none => bulletSearchGo rest
  | _ :: rest => bulletSearchGo rest

/-- `line.match` of the unanchored bullet regex
`-\s*\*\*([^*]+)\*\*[：:]\s*(.+)$` of `extractTimeInfo`: leftmost match
anywhere in the line. -/
def bulletSearchMatch? (line : String) : Option (String × String) :=
  bulletSearchGo line.toList

/-- `s.replace(/\s*\([^)]*\)\s*$/, '')`: remove one trailing parenthetical
annotation (with surrounding whitespace).  The parenthetical content may not
contain `)`, so the match — when it exists — removes everything from the
last `(` preceding the final `)` (checked star-free of `)`), together with
the whitespace on either side. -/
def stripTrailingParen (s : String) : String :=
  let r := s.toList.reverse
  let r1 := r.dropWhile isJsSpace
  match r1 with
  | ')' :: r2 =>
    let inner := r2.takeWhile (· ≠ '(')
    if inner.contains ')' then s
    else
      match r2.drop inner.length with
      | '(' :: r4 => String.mk (r4.dropWhile isJsSpace).reverse
      | _ => s
  | _ => s

/-- `/^\[.+\]\(.+\)$/.test(value)`: the whole value is a Markdown link.  With
greedy `.+` on both sides this holds exactly when the value can be split as
`[A](B)` with non-empty `A` and `B`. -/
def mdLinkTest (value : String) : Bool :=
  let cs := value.toList
  match cs with
  | '[' :: rest =>
    let n := rest.length
    (List.range n).any fun p =>
      1 ≤ p && p + 4 ≤ n &&
        rest.getD p ' ' = ']' && rest.getD (p + 1) ' ' = '(' &&
        rest.getD (n - 1) ' ' = ')'
  | _ => false

/-- `value.match(/^\[([^\]]+)\]\(([^)]+)\)$/)`: parse a full Markdown link
into text and URL (`parseMarkdownLink` in `renderer.ts`).  `[^\]]+` stops at
the first `]`, `[^)]+` stops at the first `)`, which must end the string. -/
def parseMarkdownLink? (value : String) : Option (String × String) :=
  match value.toList with
  | '[' :: rest =>
    let txt := rest.takeWhile (· ≠ ']')
    if txt.isEmpty then none
    else
      match rest.drop txt.length with
      | ']' :: '(' :: r2 =>
        let url := r2.takeWhile (· ≠ ')')
        if url.isEmpty then none
        else
          match r2.drop url.length with
          | [')'] => some (String.mk txt, String.mk url)
          | _ => none
      | _ => none
  | _ => none

/-! ## Stage metadata (`extractStageMetadata`, parser module) -/

/-- Metadata field type (`MetadataItem['type']`). -/
inductive MetaType where
  | time
  | person
  | version
  | link
  | text
deriving DecidableEq

/-- `MetadataItem` of the parser module. -/
structure MetadataItem where
  label : String
  value : String
  type : MetaType
  icon : Option String
deriving DecidableEq

/-- `StageMetadata` of the parser module. -/
structure StageMetadata where
  items : List MetadataItem
deriving DecidableEq

/-- 时间 keyword table of `extractStageMetadata`. -/
def timeKeywords : List String := ["时间", "date", "time"]

/-- Person keyword table of `extractStageMetadata`. -/
def personKeywords : List String :=
  ["者", "人员", "研究者", "提交者", "审查者", "开发者", "发现者",
   "author", "researcher", "developer"]

/-- Version keyword table of `extractStageMetadata`. -/
def versionKeywords : List String := ["版本", "version", "release"]

/-- Link keyword table of `extractStageMetadata`. -/
def linkKeywords : List String :=
  ["PR", "Commit", "CVE", "CWE", "URL", "Link", "链接", "地址"]

/-- Field-type classification of `extractStageMetadata` (label keyword match,
with URL-shaped values falling back to `link`). -/
def classifyMeta (label value : String) : MetaType × Option String :=
  if timeKeywords.any (fun k => containsSub label k) then (.time, some "🕒")
  else if personKeywords.any (fun k => containsSub label k) then (.person, some "👤")
  else if versionKeywords.any
      (fun k => containsSub (jsToLower label) (jsToLower k)) then (.version, some "📦")
  else if linkKeywords.any (fun k => containsSub label k)
      || jsStartsWith value "http" || containsSub value "://" then (.link, some "🔗")
  else (.text, none)

/-- The per-line body of the `extractStageMetadata` loop: match the bullet
regex, trim label and value, drop placeholder values (empty, `...`, `N/A`,
`TBD`, or containing 需要修改 / 待填写), strip a trailing parenthetical
unless the value is a full Markdown link, and classify. -/
def metaItemOfLine (line : String) : Option MetadataItem :=
  match metaLineMatch? line with
  | none => none
  | some (g1, g2) =>
    let label := jsTrim g1
    let value := jsTrim g2
    if value = "" || value = "..." || value = "N/A" || value = "TBD" then none
    else if containsSub value "需要修改" || containsSub value "待填写" then none
    else
      let isMarkdownLink := mdLinkTest value
      let value := if isMarkdownLink then value else jsTrim (stripTrailingParen value)
      let ti := classifyMeta label value
      some { label := label, value := value, type := ti.1, icon := ti.2 }

/-- The `extractStageMetadata` loop: index counter and the `processedLines`
set are threaded exactly as in the source (the set is consulted before an
index is ever added, which the theorems below show to be inert). -/
def extractMetaGo : Nat → List Nat → List String → List MetadataItem
  | _, _, [] => []
  | i, processed, line :: rest =>
    if subheadingStart line then []
    else if i ∈ processed then extractMetaGo (i + 1) processed rest
    else
      match metaItemOfLine line with
      | none => extractMetaGo (i + 1) processed rest
      | some item => item :: extractMetaGo (i + 1) (processed ++ [i]) rest

/-- `extractStageMetadata(content)` of the parser module. -/
def extractStageMetadata (content : String) : StageMetadata :=
  ⟨extractMetaGo 0 [] (jsSplit content '\n')⟩

/-! ## Stage number resolution

`extractStageNumber` lives in `config.js`, which is not among the provided
sources (only its import sites are).  It is therefore modelled from the
specification. -/

/-- The nine canonical stage keywords (this table also appears inline in
`renderCompletionView` in `renderer.ts` as `STAGE_KEYWORDS`). -/
def STAGE_KEYWORDS : List (String × Nat) :=
  [("基本信息", 1), ("漏洞引入", 2), ("漏洞发现", 3), ("漏洞上报", 4),
   ("漏洞修复", 5), ("漏洞公告", 6), ("漏洞情报", 7), ("漏洞利用", 8),
   ("防护", 9)]

/-- Modelled from the spec: `extractStageNumber(title)` (in the missing
`config.js`) "first tries regex `^(\d+)\.?\s*.+$` capturing a leading
integer 1–9; if absent or out of range, falls back to substring match
against a fixed keyword table (9 Chinese lifecycle-stage names → numbers
1–9), first match wins, table order matters for ties." -/
def extractStageNumber (title : String) : Option Nat :=
  let cs := title.toList
  let digits := cs.takeWhile Char.isDigit
  let numeral : Option Nat :=
    if digits.length = 0 || digits.length = cs.length then none
    else
      let n := digits.foldl (fun acc c => acc * 10 + (c.toNat - '0'.toNat)) 0
      if 1 ≤ n && n ≤ 9 then some n else none
  match numeral with
  | some n => some n
  | none =>
    (STAGE_KEYWORDS.find? (fun kv => containsSub title kv.1)).map (·.2)

/-! ## Lifecycle stage parsing (`parseLifecycleStages`, parser module) -/

/-- A sub-heading record `{level, title, line}`.  The parser variant present
in the sources does not produce these; the richer `parser.js` that does is
absent from the repository snapshot, so stages built here carry an empty
list (field modelled from the spec's data model). -/
structure StageHeading where
  level : Nat
  title : String
  line : Option Nat
deriving DecidableEq

/-- `LifecycleStage` of the parser module.  `headings` and `startLine` are
present in the spec's data model and consumed by `renderer.ts`, but the
parser variant in the sources never fills them; the embedded parser leaves
them empty. -/
structure LifecycleStage where
  title : String
  stageNum : Option Nat
  content : String
  metadata : Option StageMetadata
  headings : List StageHeading
  startLine : Option Nat
deriving DecidableEq

/-- Closing a stage: join the collected lines, trim, extract metadata, and
attach the metadata only when non-empty (`metadata.items.length > 0`). -/
def flushStage (title : String) (num : Option Nat) (contentLines : List String) :
    LifecycleStage :=
  let content := jsTrim (joinLines contentLines)
  let md := extractStageMetadata content
  { title := title, stageNum := num, content := content,
    metadata := if md.items.length > 0 then some md else none,
    headings := [], startLine := none }

/-- The `parseLifecycleStages` scan: front-matter toggle, h2 opens a new
stage (flushing the previous one), h1 before any stage is skipped, other
lines accumulate into the open stage. -/
def parseGo : List String → Bool → Option (String × Option Nat) → List String →
    List LifecycleStage
  | [], _, cur, content =>
    match cur with
    | some (t, n) => [flushStage t n content]
    | none => []
  | line :: rest, inFM, cur, content =>
    if fmDelim line then parseGo rest (!inFM) cur content
    else if inFM then parseGo rest inFM cur content
    else
      match h2MatchGroup? line with
      | some g =>
        let newTitle := jsTrim g
        let newNum := extractStageNumber newTitle
        (match cur with
         | some (t, n) => [flushStage t n content]
         | none => []) ++ parseGo rest inFM (some (newTitle, newNum)) []
      | none =>
        if (h1MatchGroup? line).isSome && cur.isNone then parseGo rest inFM cur content
        else
          match cur with
          | some _ => parseGo rest inFM cur (content ++ [line])
          | none => parseGo rest inFM cur content

/-- `parseLifecycleStages(markdown)` of the parser module. -/
def parseLifecycleStages (markdown : String) : List LifecycleStage :=
  parseGo (jsSplit markdown '\n') false none []

/-- `extractTitle(markdown)` of the parser module: the first h1 heading
outside front matter, defaulting to 漏洞研究报告. -/
def extractTitleGo : List String → Bool → String
  | [], _ => "漏洞研究报告"
  | line :: rest, inFM =>
    if fmDelim line then extractTitleGo rest (!inFM)
    else if inFM then extractTitleGo rest inFM
    else
      match h1MatchGroup? line with
      | some g => jsTrim g
      | none => extractTitleGo rest inFM

/-- `extractTitle(markdown)` of the parser module. -/
def extractTitle (markdown : String) : String :=
  extractTitleGo (jsSplit markdown '\n') false

/-- The content-line collection of the zero-stage fallback of
`renderLifecycleView` (`renderer.ts`): skip front matter and the first h1
line, keep everything else. -/
def fallbackGo : List String → Bool → Bool → List String
  | [], _, _ => []
  | line :: rest, inFM, skipH1 =>
    if fmDelim line then fallbackGo rest (!inFM) skipH1
    else if inFM then fallbackGo rest inFM skipH1
    else if skipH1 && h1Start line then fallbackGo rest inFM false
    else line :: fallbackGo rest inFM skipH1

/-- The fallback content lines of `renderLifecycleView` for a zero-stage
document. -/
def renderLifecycleFallbackLines (markdown : String) : List String :=
  fallbackGo (jsSplit markdown '\n') false true

/-! ## Front-matter characterisation (claims C1, C10) -/

/-- The lines a front-matter-aware scan keeps, as a standalone toggle scan:
`---` lines flip the flag and are themselves dropped; lines seen while the
flag is set are dropped. -/
def linesOutsideFM : Bool → List String → List String
  | _, [] => []
  | inFM, l :: ls =>
    if fmDelim l then linesOutsideFM (!inFM) ls
    else if inFM then linesOutsideFM inFM ls
    else l :: linesOutsideFM inFM ls

/-- Specification-side description of front-matter skipping: a non-delimiter
line is kept exactly when the number of `---` delimiter lines strictly
before it is even (equivalently, it does not lie between the (2k+1)-th and
the (2k+2)-th delimiter). -/
def keptByDelimParity : Nat → List String → List String
  | _, [] => []
  | cnt, l :: ls =>
    if fmDelim l then keptByDelimParity (cnt + 1) ls
    else if cnt % 2 = 1 then keptByDelimParity cnt ls
    else l :: keptByDelimParity cnt ls

/-- `parseLifecycleStages` with the front-matter branch removed: the scan a
caller would run on a document that contains no front matter. -/
def parseGoNoFM : List String → Option (String × Option Nat) → List String →
    List LifecycleStage
  | [], cur, content =>
    match cur with
    | some (t, n) => [flushStage t n content]
    | none => []
  | line :: rest, cur, content =>
    match h2MatchGroup? line with
    | some g =>
      let newTitle := jsTrim g
      let newNum := extractStageNumber newTitle
      (match cur with
       | some (t, n) => [flushStage t n content]
       | none => []) ++ parseGoNoFM rest (some (newTitle, newNum)) []
    | none =>
      if (h1MatchGroup? line).isSome && cur.isNone then parseGoNoFM rest cur content
      else
        match cur with
        | some _ => parseGoNoFM rest cur (content ++ [line])
        | none => parseGoNoFM rest cur content

/-- `extractTitle`'s scan with the front-matter branch removed. -/
def extractTitleNoFM : List String → String
  | [] => "漏洞研究报告"
  | line :: rest =>
    match h1MatchGroup? line with
    | some g => jsTrim g
    | none => extractTitleNoFM rest

/-- Remove the first line matching `^#\s+` from a line list (the
`skipFirstH1` behaviour of the zero-stage fallback). -/
def dropFirstH1 : List String → List String
  | [] => []
  | l :: ls => if h1Start l then ls else l :: dropFirstH1 ls

theorem keptByDelimParity_eq_linesOutsideFM (ls : List String) (cnt : Nat) :
    keptByDelimParity cnt ls = linesOutsideFM (cnt % 2 = 1) ls := by
  induction ls generalizing cnt with
  | nil => rfl
  | cons l rest ih =>
    by_cases hd : fmDelim l
    · have hpar : ((cnt + 1) % 2 = 1) = ¬(cnt % 2 = 1) := by
        rcases Nat.mod_two_eq_zero_or_one cnt with h | h <;>
          simp [Nat.add_mod, h]
      by_cases hc : cnt % 2 = 1 <;>
        simp [keptByDelimParity, linesOutsideFM, hd, ih, hpar, hc]
    · by_cases hc : cnt % 2 = 1 <;>
        simp [keptByDelimParity, linesOutsideFM, hd, ih, hc]

theorem parseGo_eq_noFM (ls : List String) (inFM : Bool)
    (cur : Option (String × Option Nat)) (content : List String) :
    parseGo ls inFM cur content = parseGoNoFM (linesOutsideFM inFM ls) cur content := by
  induction ls generalizing inFM cur content with
  | nil => rfl
  | cons l rest ih =>
    by_cases hd : fmDelim l
    · simp [parseGo, linesOutsideFM, hd, ih]
    · cases inFM with
      | true => simp [parseGo, linesOutsideFM, hd, ih]
      | false =>
        cases hh : h2MatchGroup? l with
        | some g => simp [parseGo, linesOutsideFM, parseGoNoFM, hd, hh, ih]
        | none =>
          by_cases hskip : (h1MatchGroup? l).isSome && cur.isNone
          · simp [parseGo, linesOutsideFM, parseGoNoFM, hd, hh, hskip, ih]
          · cases cur with
            | some c => simp [parseGo, linesOutsideFM, parseGoNoFM, hd, hh, hskip, ih]
            | none => simp [parseGo, linesOutsideFM, parseGoNoFM, hd, hh, hskip, ih]

theorem extractTitleGo_eq_noFM (ls : List String) (inFM : Bool) :
    extractTitleGo ls inFM = extractTitleNoFM (linesOutsideFM inFM ls) := by
  induction ls generalizing inFM with
  | nil => rfl
  | cons l rest ih =>
    by_cases hd : fmDelim l
    · simp [extractTitleGo, linesOutsideFM, hd, ih]
    · cases inFM with
      | true => simp [extractTitleGo, linesOutsideFM, hd, ih]
      | false =>
        cases hh : h1MatchGroup? l with
        | some g => simp [extractTitleGo, linesOutsideFM, extractTitleNoFM, hd, hh]
        | none => simp [extractTitleGo, linesOutsideFM, extractTitleNoFM, hd, hh, ih]

theorem fallbackGo_eq_noFM (ls : List String) (inFM : Bool) :
    fallbackGo ls inFM true = dropFirstH1 (linesOutsideFM inFM ls) ∧
    fallbackGo ls inFM false = linesOutsideFM inFM ls := by
  induction ls generalizing inFM with
  | nil => exact ⟨rfl, rfl⟩
  | cons l rest ih =>
    by_cases hd : fmDelim l
    · simpa [fallbackGo, linesOutsideFM, hd] using ih (!inFM)
    · cases inFM with
      | true => simpa [fallbackGo, linesOutsideFM, hd] using ih true
      | false =>
        by_cases hh : h1Start l
        · refine ⟨?_, ?_⟩ <;>
            simp [fallbackGo, linesOutsideFM, dropFirstH1, hd, hh, (ih false).1,
              (ih false).2]
        · refine ⟨?_, ?_⟩ <;>
            simp [fallbackGo, linesOutsideFM, dropFirstH1, hd, hh, (ih false).1,
              (ih false).2]

theorem parseGoNoFM_titles (ls : List String)
    (cur : Option (String × Option Nat)) (content : List String) :
    (parseGoNoFM ls cur content).map (·.title) =
      (match cur with | some (t, _) => [t] | none => []) ++
        ls.filterMap (fun l => (h2MatchGroup? l).map jsTrim) := by
  induction ls generalizing cur content with
  | nil => cases cur with
    | some c => obtain ⟨t, n⟩ := c; simp [parseGoNoFM, flushStage]
    | none => simp [parseGoNoFM]
  | cons l rest ih =>
    cases hh : h2MatchGroup? l with
    | some g =>
      cases cur with
      | some c => obtain ⟨t, n⟩ := c; simp [parseGoNoFM, hh, ih, flushStage]
      | none => simp [parseGoNoFM, hh, ih]
    | none =>
      by_cases hskip : (h1MatchGroup? l).isSome && cur.isNone
      · simp [parseGoNoFM, hh, hskip, ih]
      · cases cur with
        | some c => simp [parseGoNoFM, hh, hskip, ih]
        | none => simp [parseGoNoFM, hh, hskip, ih]

theorem countP_isSome_eq_length_filterMap {α β : Type _} (f : α → Option β)
    (ls : List α) :
    ls.countP (fun a => (f a).isSome) = (ls.filterMap f).length := by
  induction ls with
  | nil => rfl
  | cons a rest ih =>
    cases h : f a with
    | some b => simp [List.countP_cons, List.filterMap_cons, h, ih]
    | none => simp [List.countP_cons, List.filterMap_cons, h, ih]

/-- **C1.** For every Markdown string, `parseLifecycleStages` returns exactly
one stage per line matching `^##\s+(.+)$` outside front matter, and the
stage titles are the trimmed captures of those heading lines in source
order. -/
theorem parseLifecycleStages_stage_per_heading (markdown : String) :
    (parseLifecycleStages markdown).length =
      (linesOutsideFM false (jsSplit markdown '\n')).countP
        (fun l => (h2MatchGroup? l).isSome) ∧
    (parseLifecycleStages markdown).map (·.title) =
      (linesOutsideFM false (jsSplit markdown '\n')).filterMap
        (fun l => (h2MatchGroup? l).map jsTrim) := by
  have hmap : (parseLifecycleStages markdown).map (·.title) =
      (linesOutsideFM false (jsSplit markdown '\n')).filterMap
        (fun l => (h2MatchGroup? l).map jsTrim) := by
    rw [parseLifecycleStages, parseGo_eq_noFM, parseGoNoFM_titles]
    simp
  refine ⟨?_, hmap⟩
  calc (parseLifecycleStages markdown).length
      = ((parseLifecycleStages markdown).map (·.title)).length := by
        rw [List.length_map]
    _ = ((linesOutsideFM false (jsSplit markdown '\n')).filterMap
          (fun l => (h2MatchGroup? l).map jsTrim)).length := by rw [hmap]
    _ = (linesOutsideFM false (jsSplit markdown '\n')).countP
          (fun l => (h2MatchGroup? l).isSome) := by
        rw [← countP_isSome_eq_length_filterMap]
        exact List.countP_congr (fun l _ => by simp)

/-- **C10.** In `parseLifecycleStages`, `extractTitle` and the zero-stage
fallback of `renderLifecycleView`, every line matching `^---\s*$` toggles
the front-matter flag, so each of the three scans behaves exactly like its
front-matter-free counterpart run on the lines whose count of preceding
`---` delimiter lines is even — all lines between the (2k+1)-th and
(2k+2)-th delimiter (stage headings and title lines included) are skipped,
even when a `---` line is a mid-document horizontal rule. -/
theorem frontMatter_parity_skipping (markdown : String) :
    parseLifecycleStages markdown =
      parseGoNoFM (keptByDelimParity 0 (jsSplit markdown '\n')) none [] ∧
    extractTitle markdown =
      extractTitleNoFM (keptByDelimParity 0 (jsSplit markdown '\n')) ∧
    renderLifecycleFallbackLines markdown =
      dropFirstH1 (keptByDelimParity 0 (jsSplit markdown '\n')) := by
  rw [keptByDelimParity_eq_linesOutsideFM]
  refine ⟨?_, ?_, ?_⟩
  · rw [parseLifecycleStages]
    simpa using parseGo_eq_noFM (jsSplit markdown '\n') false none []
  · rw [extractTitle]
    simpa using extractTitleGo_eq_noFM (jsSplit markdown '\n') false
  · rw [renderLifecycleFallbackLines]
    simpa using (fallbackGo_eq_noFM (jsSplit markdown '\n') false).1

/-! ## Claim C4: metadata comes only from the leading bullet block -/

theorem extractMetaGo_eq_filterMap (ls : List String) (i : Nat)
    (processed : List Nat) (hp : ∀ j ∈ processed, j < i) :
    extractMetaGo i processed ls =
      (ls.takeWhile (fun l => !(subheadingStart l))).filterMap metaItemOfLine := by
  induction ls generalizing i processed with
  | nil => rfl
  | cons l rest ih =>
    by_cases hs : subheadingStart l
    · simp [extractMetaGo, List.takeWhile_cons, hs]
    · have hin : i ∉ processed := fun h => lt_irrefl i (hp i h)
      cases hm : metaItemOfLine l with
      | none =>
        have := ih (i + 1) processed (fun j hj => Nat.lt_succ_of_lt (hp j hj))
        simp [extractMetaGo, List.takeWhile_cons, List.filterMap_cons, hs, hin, hm, this]
      | some item =>
        have := ih (i + 1) (processed ++ [i]) (by
          intro j hj
          rcases List.mem_append.mp hj with h | h
          · exact Nat.lt_succ_of_lt (hp j h)
          · simp only [List.mem_singleton] at h
            omega)
        simp [extractMetaGo, List.takeWhile_cons, List.filterMap_cons, hs, hin, hm, this]

/-- **C4.** The items of `extractStageMetadata` come only from the leading
run of lines before the first `^#{3,}\s+` sub-heading line (each consumed at
most once, via `metaItemOfLine`), and a label/value bullet whose value is
empty, `...`, `N/A`, `TBD`, or contains 需要修改 / 待填写 produces no item. -/
theorem extractStageMetadata_leading_block (content : String) :
    (extractStageMetadata content).items =
      ((jsSplit content '\n').takeWhile
        (fun l => !(subheadingStart l))).filterMap metaItemOfLine ∧
    ∀ l lbl val, metaLineMatch? l = some (lbl, val) →
      (jsTrim val = "" ∨ jsTrim val = "..." ∨ jsTrim val = "N/A" ∨
       jsTrim val = "TBD" ∨ containsSub (jsTrim val) "需要修改" = true ∨
       containsSub (jsTrim val) "待填写" = true) →
      metaItemOfLine l = none := by
  constructor
  · exact extractMetaGo_eq_filterMap _ 0 [] (by simp)
  · intro l lbl val hm hdrop
    rw [metaItemOfLine, hm]
    rcases hdrop with h | h | h | h | h | h <;>
      simp [h]

/-! ## Date handling (`parseDate`, `renderer.ts`)

The ECMAScript `Date` is a host primitive; it is modelled on the proleptic
Gregorian calendar with the host's local time zone taken to be UTC. -/

/-- Value of a decimal digit string (`parseInt` on an all-digit capture). -/
def digitsToNat (cs : List Char) : Nat :=
  cs.foldl (fun a c => a * 10 + (c.toNat - '0'.toNat)) 0

/-- Days since 1970-01-01 of a proleptic-Gregorian civil date
(`days_from_civil`); `m` must be in 1..12, `d` may be out of range (the
ECMAScript `MakeDay` overflow is ordinary day arithmetic). -/
def daysFromCivil (y m d : Int) : Int :=
  let yy := if m ≤ 2 then y - 1 else y
  let era := Int.fdiv yy 400
  let yoe := yy - era * 400
  let mp := Int.emod (m + 9) 12
  let doy := (153 * mp + 2) / 5 + d - 1
  let doe := yoe * 365 + yoe / 4 - yoe / 100 + doy
  era * 146097 + doe - 719468

/-- `new Date(year, monthIndex, day).getTime()`: the two-digit-year rule of
the `Date` constructor, month-index normalisation, and epoch milliseconds
(local zone modelled as UTC). -/
def jsDateMillisYMD (year monthIndex day : Int) : Int :=
  let year := if 0 ≤ year ∧ year ≤ 99 then year + 1900 else year
  let ym := year + Int.fdiv monthIndex 12
  let mn := Int.emod monthIndex 12
  86400000 * daysFromCivil ym (mn + 1) day

/-- The `isNaN(date.getTime())` validity window of ECMAScript time values. -/
def mkJsDate (t : Int) : Option Int :=
  if t.natAbs ≤ 8640000000000000 then some t else none

/-- Matcher for `^(\d{4})S(\d{1,2})S(\d{1,2})$` with a literal separator `S`
(the `-`, `/` and `.` date formats tried by `parseDate`). -/
def parseYmdSep (sep : Char) (cs : List Char) : Option (Nat × Nat × Nat) :=
  match cs with
  | a :: b :: c :: d :: rest =>
    if a.isDigit && b.isDigit && c.isDigit && d.isDigit then
      match rest with
      | s1 :: r1 =>
        if s1 = sep then
          let mrun := r1.takeWhile Char.isDigit
          if mrun.length = 0 || 2 < mrun.length then none
          else
            match r1.drop mrun.length with
            | s2 :: r2 =>
              if s2 = sep then
                let drun := r2.takeWhile Char.isDigit
                if drun.length = 0 || 2 < drun.length || r2.length ≠ drun.length then none
                else some (digitsToNat [a, b, c, d], digitsToNat mrun, digitsToNat drun)
              else none
            | [] => none
        else none
      | [] => none
    else none
  | _ => none

/-- Matcher for `^(\d{4})(\d{2})(\d{2})$` (the `YYYYMMDD` format). -/
def parseYmd8 (cs : List Char) : Option (Nat × Nat × Nat) :=
  if cs.length = 8 && cs.all Char.isDigit then
    some (digitsToNat (cs.take 4), digitsToNat ((cs.drop 4).take 2),
      digitsToNat (cs.drop 6))
  else none

/-- Modelled from the spec: the "generic date-string parse" fallback of
`parseDate` delegates to the host `new Date(string)` parser, which is not
part of the sources.  It is modelled for ISO 8601 `YYYY-MM-DDTHH:MM:SS`
strings (seconds optional); every other host-recognised format is modelled
as unparseable.  No claim below depends on this function's behaviour. -/
def jsDateStringFallback (s : String) : Option Int :=
  let cs := s.toList
  match parseYmdSep '-' (cs.take 10) with
  | some (y, m, d) =>
    let base := 86400000 * daysFromCivil (Int.ofNat y) (Int.ofNat m) (Int.ofNat d)
    match cs.drop 10 with
    | [] => some base
    | 'T' :: h1 :: h2 :: ':' :: m1 :: m2 :: rest =>
      if [h1, h2, m1, m2].all Char.isDigit then
        let hh := digitsToNat [h1, h2]
        let mm := digitsToNat [m1, m2]
        let ss :=
          match rest with
          | ':' :: s1 :: s2 :: [] =>
            if s1.isDigit && s2.isDigit then some (digitsToNat [s1, s2]) else none
          | [] => some 0
          | _ => none
        match ss with
        | some ssv =>
          if hh ≤ 23 && mm ≤ 59 && ssv ≤ 59 then
            some (base + 3600000 * hh + 60000 * mm + 1000 * ssv)
          else none
        | none => none
      else none
    | _ => none
  | none => none

/-- One format attempt of the `parseDate` loop: if the regex matched, build
the date and keep it only when valid (`!isNaN`); otherwise fall through. -/
def tryDateFormat (r : Option (Nat × Nat × Nat)) : Option Int :=
  match r with
  | some (y, m, d) =>
    mkJsDate (jsDateMillisYMD (Int.ofNat y) (Int.ofNat m - 1) (Int.ofNat d))
  | none => none

/-- `parseDate(dateStr)` of `renderer.ts`: reject sentinel values, strip a
trailing parenthetical, try `YYYY-M-D`, `YYYY/M/D`, `YYYY.M.D`, `YYYYMMDD`
in order, then fall back to the host string parser; `null` on failure. -/
def parseDate (dateStr : String) : Option Int :=
  if dateStr = "" || containsSub dateStr "需要修改" || containsSub dateStr "待填写" then
    none
  else
    let dateStr := jsTrim (stripTrailingParen dateStr)
    let cs := dateStr.toList
    match tryDateFormat (parseYmdSep '-' cs) with
    | some t => some t
    | none =>
      match tryDateFormat (parseYmdSep '/' cs) with
      | some t => some t
      | none =>
        match tryDateFormat (parseYmdSep '.' cs) with
        | some t => some t
        | none =>
          match tryDateFormat (parseYmd8 cs) with
          | some t => some t
          | none =>
            match jsDateStringFallback dateStr with
            | some t => mkJsDate t
            | none => none

/-! ## Time info extraction and primary timestamps (`renderer.ts`) -/

/-- `TimeInfo` of `renderer.ts`. -/
structure TimeInfo where
  label : String
  value : String
  timestamp : Option Int
deriving DecidableEq

/-- The per-line body of the `extractTimeInfo` loop: unanchored bullet
match, keep only labels containing 时间, normalise 需要修改 values to
待填写, strip a trailing parenthetical, and parse the date. -/
def timeInfoOfLine (line : String) : Option TimeInfo :=
  match bulletSearchMatch? line with
  | none => none
  | some (g1, g2) =>
    let fieldName := jsTrim g1
    let fieldValue := jsTrim g2
    if containsSub fieldName "时间" then
      let fieldValue :=
        if containsSub fieldValue "需要修改" then "待填写"
        else jsTrim (stripTrailingParen fieldValue)
      if fieldValue.length > 0 then
        some { label := fieldName, value := fieldValue, timestamp := parseDate fieldValue }
      else none
    else none

/-- `extractTimeInfo(content)` of `renderer.ts`. -/
def extractTimeInfo (content : String) : List TimeInfo :=
  (jsSplit content '\n').filterMap timeInfoOfLine

/-- Boolean `≤` comparison corresponding to the JS numeric comparator
`(a, b) => a - b` used to sort timestamps ascending. -/
def intLeB (a b : Int) : Bool := a ≤ b

/-- `getPrimaryTimestamp(stage)` of `renderer.ts`: the ascending sort of the
non-null timestamps of the stage's time info, then the first element. -/
def getPrimaryTimestamp (stage : LifecycleStage) : Option Int :=
  let timeInfo := extractTimeInfo (jsTrim stage.content)
  if timeInfo.isEmpty then none
  else
    let timestamps := (timeInfo.filterMap (·.timestamp)).mergeSort intLeB
    timestamps.head?

theorem mergeSort_head_none (l : List Int) :
    (l.mergeSort intLeB).head? = none ↔ l = [] := by
  have hperm := List.mergeSort_perm l intLeB
  constructor
  · intro h
    have hnil : l.mergeSort intLeB = [] := by
      cases hs : l.mergeSort intLeB with
      | nil => rfl
      | cons a rest => rw [hs] at h; cases h
    rw [hnil] at hperm
    exact hperm.symm.eq_nil
  · intro h
    subst h
    simp [List.mergeSort]

theorem mergeSort_head_some (l : List Int) (t : Int) :
    (l.mergeSort intLeB).head? = some t ↔ (t ∈ l ∧ ∀ u ∈ l, t ≤ u) := by
  have hperm := List.mergeSort_perm l intLeB
  have hsorted : (l.mergeSort intLeB).Pairwise (fun a b => intLeB a b = true) := by
    apply List.sorted_mergeSort
    · intro a b c hab hbc
      simp only [intLeB, decide_eq_true_eq] at hab hbc ⊢
      omega
    · intro a b
      simp only [intLeB, Bool.or_eq_true, decide_eq_true_eq]
      omega
  cases hs : l.mergeSort intLeB with
  | nil =>
    rw [hs] at hperm
    have hl : l = [] := hperm.symm.eq_nil
    subst hl
    simp
  | cons a rest =>
    rw [hs] at hperm hsorted
    simp only [List.head?_cons, Option.some_inj]
    have hmem_a : a ∈ l := hperm.mem_iff.mp (List.mem_cons_self a rest)
    have hlb : ∀ u ∈ l, a ≤ u := by
      intro u hu
      rcases List.mem_cons.mp (hperm.mem_iff.mpr hu) with rfl | hm
      · exact le_refl u
      · have := (List.pairwise_cons.mp hsorted).1 u hm
        simpa [intLeB] using this
    constructor
    · rintro rfl
      exact ⟨hmem_a, hlb⟩
    · rintro ⟨hmem, hlb2⟩
      exact le_antisymm (hlb t hmem) (hlb2 a hmem_a)

/-- **C6.** `getPrimaryTimestamp` returns the minimum of the non-null
timestamps extracted from the stage's time-labelled bullet lines, and `none`
when no time entry yields a parseable timestamp. -/
theorem getPrimaryTimestamp_is_min (stage : LifecycleStage) :
    (getPrimaryTimestamp stage = none ↔
      (extractTimeInfo (jsTrim stage.content)).filterMap (·.timestamp) = []) ∧
    ∀ t, getPrimaryTimestamp stage = some t ↔
      (t ∈ (extractTimeInfo (jsTrim stage.content)).filterMap (·.timestamp) ∧
       ∀ u ∈ (extractTimeInfo (jsTrim stage.content)).filterMap (·.timestamp), t ≤ u) := by
  by_cases h : (extractTimeInfo (jsTrim stage.content)).isEmpty
  · have hnil : extractTimeInfo (jsTrim stage.content) = [] := by
      cases he : extractTimeInfo (jsTrim stage.content) with
      | nil => rfl
      | cons a rest => rw [he] at h; simp [List.isEmpty] at h
    constructor
    · simp [getPrimaryTimestamp, hnil]
    · intro t
      simp [getPrimaryTimestamp, hnil]
  · have hval : getPrimaryTimestamp stage =
        (((extractTimeInfo (jsTrim stage.content)).filterMap
          (·.timestamp)).mergeSort intLeB).head? := by
      simp only [getPrimaryTimestamp, h, if_false, Bool.false_eq_true]
    rw [hval]
    exact ⟨mergeSort_head_none _, fun t => mergeSort_head_some _ t⟩

/-! ## Date formatting (`formatDate`, `formatDateTime`, `renderer.ts`) -/

/-- Inverse of `daysFromCivil` (`civil_from_days`): year, month, day of a
day count since 1970-01-01. -/
def civilFromDays (z0 : Int) : Int × Int × Int :=
  let z := z0 + 719468
  let era := Int.fdiv z 146097
  let doe := z - era * 146097
  let yoe := (doe - doe / 1460 + doe / 36524 - doe / 146096) / 365
  let y := yoe + era * 400
  let doy := doe - (365 * yoe + yoe / 4 - yoe / 100)
  let mp := (5 * doy + 2) / 153
  let d := doy - (153 * mp + 2) / 5 + 1
  let m := if mp < 10 then mp + 3 else mp - 9
  (if m ≤ 2 then y + 1 else y, m, d)

/-- Day count of an epoch-milliseconds value (`Date` getters, local zone
modelled as UTC). -/
def msToDays (t : Int) : Int := Int.fdiv t 86400000

/-- `String(n).padStart(2, '0')`. -/
def pad2 (n : Int) : String :=
  let s := toString n
  if s.length < 2 then "0" ++ s else s

/-- `formatDateTime(timestamp)` of `renderer.ts`:
`YYYY年MM月DD日 (周W)`. -/
def formatDateTime (t : Int) : String :=
  let days := msToDays t
  let c := civilFromDays days
  let weekdays := ["日", "一", "二", "三", "四", "五", "六"]
  let w := weekdays.getD (Int.emod (days + 4) 7).toNat ""
  toString c.1 ++ "年" ++ pad2 c.2.1 ++ "月" ++ pad2 c.2.2 ++ "日 (周" ++ w ++ ")"

/-- `formatDate(timestamp)` of `renderer.ts`: the two-column vertical digit
markup used by the timeline markers. -/
def formatDate (t : Int) : String :=
  let c := civilFromDays (msToDays t)
  let yearWithDash := toString c.1 ++ "-"
  let yearChars := concatAll (yearWithDash.toList.map
    (fun ch => "<span class=\"date-year-digit\">" ++ String.mk [ch] ++ "</span>"))
  let monthDayWithDash := pad2 c.2.1 ++ "-" ++ pad2 c.2.2
  let monthDayChars := concatAll (monthDayWithDash.toList.map
    (fun ch => "<span class=\"date-month-day-char\">" ++ String.mk [ch] ++ "</span>"))
  "<div class=\"date-columns\"><div class=\"date-column-left\">" ++ yearChars ++
    "</div><div class=\"date-column-right\">" ++ monthDayChars ++ "</div></div>"

/-! ## Time grouping (`groupStagesByTime`, `renderer.ts`) -/

/-- The key type of the `timeMap`: a JavaScript `Map<number | string, ...>`
distinguishes numeric keys (primary timestamps) from the synthetic
`no-time-...` string keys. -/
inductive TimeKey where
  | ts (t : Int)
  | noTime (s : String)
deriving DecidableEq

/-- The grouping key of a stage:
`primaryTimestamp ?? ` ``no-time-${stage.stageNum ?? 'unknown'}``. -/
def stageTimeKey (stage : LifecycleStage) : TimeKey :=
  match getPrimaryTimestamp stage with
  | some t => .ts t
  | none =>
    .noTime ("no-time-" ++ (match stage.stageNum with
      | some n => toString n
      | none => "unknown"))

/-- One stage entry of a time node (`{stage, timeInfo, primaryTimestamp}`). -/
structure TimeNodeEntry where
  stage : LifecycleStage
  timeInfo : List TimeInfo
  primaryTimestamp : Option Int
deriving DecidableEq

/-- `TimeNode` of `renderer.ts`. -/
structure TimeNode where
  timestamp : Option Int
  dateLabel : String
  stages : List TimeNodeEntry
deriving DecidableEq

/-- Association-list lookup modelling `timeMap.get` / `timeMap.has`. -/
def alookup : List (TimeKey × TimeNode) → TimeKey → Option TimeNode
  | [], _ => none
  | (k, v) :: rest, key => if key = k then some v else alookup rest key

/-- `timeMap.get(key)!.stages.push(entry)`: append an entry to the stages of
the node stored under `key`. -/
def apushStage : List (TimeKey × TimeNode) → TimeKey → TimeNodeEntry →
    List (TimeKey × TimeNode)
  | [], _, _ => []
  | (k, v) :: rest, key, e =>
    if key = k then (k, { v with stages := v.stages ++ [e] }) :: rest
    else (k, v) :: apushStage rest key e

/-- One iteration of the `groupStagesByTime` loop: compute the stage's key,
create its node (and record the key in `nodeOrder`) on first sight, then
push the stage entry onto the node. -/
def groupStep (acc : List (TimeKey × TimeNode) × List TimeKey)
    (stage : LifecycleStage) : List (TimeKey × TimeNode) × List TimeKey :=
  let primaryTimestamp := getPrimaryTimestamp stage
  let timeInfo := extractTimeInfo stage.content
  let key := stageTimeKey stage
  let entry : TimeNodeEntry := ⟨stage, timeInfo, primaryTimestamp⟩
  if (alookup acc.1 key).isSome then
    (apushStage acc.1 key entry, acc.2)
  else
    let dateLabel :=
      match primaryTimestamp with
      | some t => formatDateTime t
      | none => "未指定时间"
    let node : TimeNode :=
      { timestamp := primaryTimestamp, dateLabel := dateLabel, stages := [] }
    (apushStage (acc.1 ++ [(key, node)]) key entry, acc.2 ++ [key])

/-- `groupStagesByTime(stages)` of `renderer.ts`: build the key → node map,
then emit the nodes in `nodeOrder` (first-appearance) order — no
chronological sorting. -/
def groupStagesByTime (stages : List LifecycleStage) : List TimeNode :=
  let acc := stages.foldl groupStep ([], [])
  acc.2.filterMap (alookup acc.1)

/-! ### Specification-side characterisation of `groupStagesByTime` -/

/-- First-occurrence deduplication of a key list: the order in which each
distinct key first appears. -/
def firstOccurrences (ks : List TimeKey) : List TimeKey :=
  ks.foldl (fun acc k => if k ∈ acc then acc else acc ++ [k]) []

/-- The timestamp a key determines (`null` for synthetic no-time keys). -/
def keyTimestamp : TimeKey → Option Int
  | .ts t => some t
  | .noTime _ => none

/-- The date label a key determines. -/
def keyDateLabel (k : TimeKey) : String :=
  match keyTimestamp k with
  | some t => formatDateTime t
  | none => "未指定时间"

/-- The node a key should carry: its stages are all input stages with that
key, in scan order. -/
def nodeForKey (stages : List LifecycleStage) (k : TimeKey) : TimeNode :=
  { timestamp := keyTimestamp k
    dateLabel := keyDateLabel k
    stages := (stages.filter (fun s => stageTimeKey s = k)).map
      (fun s => ⟨s, extractTimeInfo s.content, getPrimaryTimestamp s⟩) }

theorem keyTimestamp_stageTimeKey (s : LifecycleStage) :
    keyTimestamp (stageTimeKey s) = getPrimaryTimestamp s := by
  rw [stageTimeKey]
  cases getPrimaryTimestamp s <;> rfl

theorem alookup_apushStage (m : List (TimeKey × TimeNode)) (key : TimeKey)
    (e : TimeNodeEntry) (k : TimeKey) :
    alookup (apushStage m key e) k =
      if k = key then
        (alookup m key).map (fun v => { v with stages := v.stages ++ [e] })
      else alookup m k := by
  induction m with
  | nil => by_cases h : k = key <;> simp [apushStage, alookup, h]
  | cons p rest ih =>
    obtain ⟨k0, v0⟩ := p
    by_cases hkey : key = k0
    · subst hkey
      by_cases hk : k = key <;> simp [apushStage, alookup, hk]
    · by_cases hk : k = k0
      · subst hk
        have : ¬k = key := fun h => hkey h.symm
        simp [apushStage, alookup, hkey, this]
      · simp [apushStage, alookup, hkey, hk, ih]

theorem alookup_append_single (m : List (TimeKey × TimeNode)) (key : TimeKey)
    (v : TimeNode) (k : TimeKey) :
    alookup (m ++ [(key, v)]) k =
      match alookup m k with
      | some w => some w
      | none => if k = key then some v else none := by
  induction m with
  | nil => simp [alookup]
  | cons p rest ih =>
    obtain ⟨k0, v0⟩ := p
    by_cases hk : k = k0 <;> simp [alookup, hk, ih]

theorem firstOccurrences_append (ks : List TimeKey) (k : TimeKey) :
    firstOccurrences (ks ++ [k]) =
      if k ∈ firstOccurrences ks then firstOccurrences ks
      else firstOccurrences ks ++ [k] := by
  rw [firstOccurrences, firstOccurrences, List.foldl_append]
  rfl

/-- The fold invariant of `groupStagesByTime`: after processing a prefix,
`nodeOrder` is the first-occurrence key list of the prefix and the map
stores exactly `nodeForKey prefix` for each recorded key. -/
def GroupInv (processed : List LifecycleStage)
    (acc : List (TimeKey × TimeNode) × List TimeKey) : Prop :=
  acc.2 = firstOccurrences (processed.map stageTimeKey) ∧
  (∀ k, alookup acc.1 k =
    if k ∈ acc.2 then some (nodeForKey processed k) else none) ∧
  (∀ s ∈ processed, stageTimeKey s ∈ acc.2)

theorem nodeForKey_append_same (stages : List LifecycleStage)
    (s : LifecycleStage) (k : TimeKey) (h : stageTimeKey s = k) :
    nodeForKey (stages ++ [s]) k =
      { nodeForKey stages k with
        stages := (nodeForKey stages k).stages ++
          [⟨s, extractTimeInfo s.content, getPrimaryTimestamp s⟩] } := by
  simp [nodeForKey, List.filter_append, h]

theorem nodeForKey_append_other (stages : List LifecycleStage)
    (s : LifecycleStage) (k : TimeKey) (h : ¬stageTimeKey s = k) :
    nodeForKey (stages ++ [s]) k = nodeForKey stages k := by
  simp [nodeForKey, List.filter_append, h]

theorem groupStep_inv (processed : List LifecycleStage)
    (acc : List (TimeKey × TimeNode) × List TimeKey)
    (hinv : GroupInv processed acc) (s : LifecycleStage) :
    GroupInv (processed ++ [s]) (groupStep acc s) := by
  obtain ⟨horder, hmap, hcover⟩ := hinv
  have hkeys : (processed ++ [s]).map stageTimeKey =
      processed.map stageTimeKey ++ [stageTimeKey s] := by
    simp
  by_cases hseen : (alookup acc.1 (stageTimeKey s)).isSome = true
  · -- key already present: no new node, entry appended
    have hmem : stageTimeKey s ∈ acc.2 := by
      by_contra hmem
      rw [hmap (stageTimeKey s), if_neg hmem] at hseen
      simp at hseen
    have hg : groupStep acc s = (apushStage acc.1 (stageTimeKey s)
        ⟨s, extractTimeInfo s.content, getPrimaryTimestamp s⟩, acc.2) := by
      simp only [groupStep, hseen, if_true]
    refine ⟨?_, ?_, ?_⟩
    · rw [hg, hkeys, firstOccurrences_append,
        if_pos (show stageTimeKey s ∈ _ from horder ▸ hmem), ← horder]
    · intro k
      rw [hg]
      show alookup (apushStage acc.1 (stageTimeKey s) _) k = _
      rw [alookup_apushStage]
      by_cases hk : k = stageTimeKey s
      · subst hk
        rw [if_pos rfl, hmap (stageTimeKey s), if_pos hmem, if_pos hmem,
          nodeForKey_append_same processed s (stageTimeKey s) rfl]
        rfl
      · rw [if_neg hk, hmap k]
        by_cases hmem2 : k ∈ acc.2
        · rw [if_pos hmem2, if_pos hmem2,
            nodeForKey_append_other processed s k (fun h => hk h.symm)]
        · rw [if_neg hmem2, if_neg hmem2]
    · intro t ht
      rw [hg]
      rcases List.mem_append.mp ht with h | h
      · exact hcover t h
      · simp only [List.mem_singleton] at h
        subst h
        exact hmem
  · -- first sight of key: node created, key appended to order
    have hmem : stageTimeKey s ∉ acc.2 := by
      intro hmem
      rw [hmap (stageTimeKey s), if_pos hmem] at hseen
      simp at hseen
    have hlook : alookup acc.1 (stageTimeKey s) = none := by
      cases hl : alookup acc.1 (stageTimeKey s) with
      | none => rfl
      | some v => rw [hl] at hseen; simp at hseen
    have hfilter : processed.filter (fun t => stageTimeKey t = stageTimeKey s) = [] := by
      rw [List.filter_eq_nil_iff]
      intro t ht hkey
      exact hmem ((by simpa using hkey : stageTimeKey t = stageTimeKey s) ▸ hcover t ht)
    have hnotfirst : stageTimeKey s ∉ firstOccurrences (processed.map stageTimeKey) := by
      rw [← horder]
      exact hmem
    have hg : groupStep acc s = (apushStage
        (acc.1 ++ [(stageTimeKey s,
          { timestamp := getPrimaryTimestamp s
            dateLabel := match getPrimaryTimestamp s with
              | some t => formatDateTime t
              | none => "未指定时间"
            stages := [] })])
        (stageTimeKey s)
        ⟨s, extractTimeInfo s.content, getPrimaryTimestamp s⟩, acc.2 ++ [stageTimeKey s]) := by
      simp only [groupStep, hseen, Bool.false_eq_true, if_false]
    have hnode : nodeForKey (processed ++ [s]) (stageTimeKey s) =
        { timestamp := getPrimaryTimestamp s
          dateLabel := match getPrimaryTimestamp s with
            | some t => formatDateTime t
            | none => "未指定时间"
          stages := [⟨s, extractTimeInfo s.content, getPrimaryTimestamp s⟩] } := by
      have hfl : (processed ++ [s]).filter (fun t => stageTimeKey t = stageTimeKey s) =
          [s] := by
        rw [List.filter_append, hfilter]
        simp
      rw [nodeForKey]
      cases hp : getPrimaryTimestamp s with
      | none => simp [keyDateLabel, keyTimestamp_stageTimeKey, hp, hfl]
      | some t => simp [keyDateLabel, keyTimestamp_stageTimeKey, hp, hfl]
    refine ⟨?_, ?_, ?_⟩
    · rw [hg, hkeys, firstOccurrences_append, if_neg hnotfirst, ← horder]
    · intro k
      rw [hg]
      show alookup (apushStage _ (stageTimeKey s) _) k = _
      rw [alookup_apushStage]
      by_cases hk : k = stageTimeKey s
      · subst hk
        rw [if_pos rfl, alookup_append_single, hmap (stageTimeKey s), if_neg hmem,
          if_pos (List.mem_append.mpr (Or.inr (by simp : stageTimeKey s ∈ [stageTimeKey s]))),
          hnode]
        simp
      · rw [if_neg hk, alookup_append_single, hmap k]
        by_cases hmem2 : k ∈ acc.2
        · rw [if_pos hmem2, if_pos (List.mem_append.mpr (Or.inl hmem2)),
            nodeForKey_append_other processed s k (fun h => hk h.symm)]
        · rw [if_neg hmem2]
          have hc : k ∉ acc.2 ++ [stageTimeKey s] := by
            intro hc
            rcases List.mem_append.mp hc with h | h
            · exact hmem2 h
            · simp only [List.mem_singleton] at h
              exact hk h
          rw [if_neg hc]
          simp [hk]
    · intro t ht
      rw [hg]
      rcases List.mem_append.mp ht with h | h
      · exact List.mem_append.mpr (Or.inl (hcover t h))
      · simp only [List.mem_singleton] at h
        subst h
        exact List.mem_append.mpr (Or.inr (by simp))

theorem groupFoldl_inv (rest : List LifecycleStage) :
    ∀ (processed : List LifecycleStage)
      (acc : List (TimeKey × TimeNode) × List TimeKey),
      GroupInv processed acc →
      GroupInv (processed ++ rest) (rest.foldl groupStep acc) := by
  induction rest with
  | nil => intro processed acc h; simpa using h
  | cons s rest ih =>
    intro processed acc h
    have := ih (processed ++ [s]) (groupStep acc s) (groupStep_inv processed acc h s)
    simpa using this

/-- Shared characterisation: `groupStagesByTime` returns, for each distinct
key in order of first appearance, the node collecting that key's stages in
scan order. -/
theorem groupStagesByTime_eq (stages : List LifecycleStage) :
    groupStagesByTime stages =
      (firstOccurrences (stages.map stageTimeKey)).map (nodeForKey stages) := by
  have hinv0 : GroupInv [] ([], []) := by
    refine ⟨rfl, fun k => by simp [alookup], by simp⟩
  have hinv := groupFoldl_inv stages [] ([], []) hinv0
  simp only [List.nil_append] at hinv
  obtain ⟨horder, hmap, -⟩ := hinv
  rw [groupStagesByTime]
  set acc := stages.foldl groupStep ([], []) with hacc
  rw [horder]
  have : ∀ ks : List TimeKey, (∀ k ∈ ks, k ∈ acc.2) →
      ks.filterMap (alookup acc.1) = ks.map (nodeForKey stages) := by
    intro ks
    induction ks with
    | nil => intro _; rfl
    | cons k rest ih =>
      intro hks
      have hk : k ∈ acc.2 := hks k (by simp)
      rw [List.filterMap_cons, hmap k, if_pos hk]
      simp only [List.map_cons]
      rw [ih (fun k' h => hks k' (by simp [h]))]
  rw [← horder]
  exact this acc.2 (fun k h => h)

/-- **C3.** `groupStagesByTime` returns its time nodes in the order in which
each node's key (primary timestamp or synthetic no-time key) first appears
among the input stages — no chronological reordering — and stages within a
node keep scan order. -/
theorem groupStagesByTime_first_appearance_order (stages : List LifecycleStage) :
    groupStagesByTime stages =
      (firstOccurrences (stages.map stageTimeKey)).map (nodeForKey stages) :=
  groupStagesByTime_eq stages

/-! ### Claim C5: no stage is dropped or duplicated -/

theorem firstOccurrences_sub (ks : List TimeKey) :
    ∀ (acc : List TimeKey), acc ⊆ ks.foldl
      (fun acc k => if k ∈ acc then acc else acc ++ [k]) acc := by
  induction ks with
  | nil => intro acc; exact fun _ h => h
  | cons k rest ih =>
    intro acc
    simp only [List.foldl_cons]
    intro x hx
    apply ih (if k ∈ acc then acc else acc ++ [k])
    by_cases h : k ∈ acc <;> simp [h, hx]

theorem foldl_ins_mem (ks : List TimeKey) :
    ∀ (acc : List TimeKey) (k : TimeKey), k ∈ ks →
      k ∈ ks.foldl (fun acc k => if k ∈ acc then acc else acc ++ [k]) acc := by
  induction ks with
  | nil => intro acc k h; cases h
  | cons k0 rest ih =>
    intro acc k h
    simp only [List.foldl_cons]
    rcases List.mem_cons.mp h with rfl | h
    · apply firstOccurrences_sub rest
      by_cases h0 : k ∈ acc <;> simp [h0]
    · exact ih _ k h

theorem mem_firstOccurrences (ks : List TimeKey) (k : TimeKey) (h : k ∈ ks) :
    k ∈ firstOccurrences ks :=
  foldl_ins_mem ks [] k h

theorem foldl_ins_nodup (ks : List TimeKey) :
    ∀ acc : List TimeKey, acc.Nodup →
      (ks.foldl (fun acc k => if k ∈ acc then acc else acc ++ [k]) acc).Nodup := by
  induction ks with
  | nil => intro acc h; exact h
  | cons k0 rest ih =>
    intro acc h
    simp only [List.foldl_cons]
    apply ih
    by_cases h0 : k0 ∈ acc
    · simpa [h0]
    · rw [if_neg h0, List.nodup_append]
      refine ⟨h, List.nodup_singleton k0, ?_⟩
      intro a ha hb
      simp only [List.mem_singleton] at hb
      subst hb
      exact h0 ha

theorem firstOccurrences_nodup (ks : List TimeKey) :
    (firstOccurrences ks).Nodup :=
  foldl_ins_nodup ks [] List.nodup_nil

theorem sum_map_add_distrib (K : List TimeKey) (f g : TimeKey → Nat) :
    (K.map (fun k => f k + g k)).sum = (K.map f).sum + (K.map g).sum := by
  induction K with
  | nil => rfl
  | cons k rest ih =>
    simp only [List.map_cons, List.sum_cons, ih]
    omega

theorem sum_map_indicator (K : List TimeKey) (key : TimeKey) (hnd : K.Nodup)
    (hmem : key ∈ K) :
    (K.map (fun k => if key = k then 1 else 0)).sum = 1 := by
  induction K with
  | nil => cases hmem
  | cons k rest ih =>
    rcases List.mem_cons.mp hmem with rfl | h
    · simp only [List.map_cons, List.sum_cons, if_pos rfl]
      have hnr : key ∉ rest := (List.nodup_cons.mp hnd).1
      have hz : (rest.map (fun k => if key = k then 1 else 0)).sum = 0 := by
        apply List.sum_eq_zero
        intro x hx
        simp only [List.mem_map] at hx
        obtain ⟨k', hk', rfl⟩ := hx
        rw [if_neg (fun he => hnr (by rw [he]; exact hk'))]
      simp [hz]
    · have hne : ¬key = k := fun he => (List.nodup_cons.mp hnd).1 (he ▸ h)
      simp only [List.map_cons, List.sum_cons, if_neg hne]
      rw [ih (List.nodup_cons.mp hnd).2 h]

theorem sum_filter_lengths (stages : List LifecycleStage) (K : List TimeKey)
    (hnd : K.Nodup) (hcov : ∀ s ∈ stages, stageTimeKey s ∈ K) :
    (K.map (fun k => (stages.filter (fun s => stageTimeKey s = k)).length)).sum =
      stages.length := by
  induction stages with
  | nil => simp
  | cons s tl ih =>
    have hcov' : ∀ x ∈ tl, stageTimeKey x ∈ K := fun x hx => hcov x (by simp [hx])
    have hs : stageTimeKey s ∈ K := hcov s (by simp)
    have hmapeq : K.map (fun k => ((s :: tl).filter (fun x => stageTimeKey x = k)).length) =
        K.map (fun k => (if stageTimeKey s = k then 1 else 0) +
          (tl.filter (fun x => stageTimeKey x = k)).length) := by
      apply List.map_congr_left
      intro k _
      by_cases h : stageTimeKey s = k <;> simp [List.filter_cons, h, Nat.add_comm]
    rw [hmapeq, sum_map_add_distrib, sum_map_indicator K (stageTimeKey s) hnd hs,
      ih hcov']
    exact Nat.add_comm 1 tl.length

/-- **C5.** `groupStagesByTime` never drops or duplicates a stage: the node
stage counts sum to the number of input stages. -/
theorem groupStagesByTime_preserves_count (stages : List LifecycleStage) :
    ((groupStagesByTime stages).map (fun n => n.stages.length)).sum =
      stages.length := by
  rw [groupStagesByTime_eq, List.map_map]
  have hmapeq : (firstOccurrences (stages.map stageTimeKey)).map
      ((fun n => n.stages.length) ∘ nodeForKey stages) =
      (firstOccurrences (stages.map stageTimeKey)).map
        (fun k => (stages.filter (fun s => stageTimeKey s = k)).length) := by
    apply List.map_congr_left
    intro k _
    simp [nodeForKey]
  rw [hmapeq]
  apply sum_filter_lengths
  · exact firstOccurrences_nodup _
  · intro s hs
    exact mem_firstOccurrences _ _ (List.mem_map_of_mem stageTimeKey hs)

/-! ## Completion scoring (`parseSubsections`, `calculateStageCompletion`,
`renderCompletionView`, `renderer.ts`) -/

/-- `TODO_REGEX = /TODO:/i` as a case-insensitive substring test. -/
def containsTodo (s : String) : Bool :=
  containsSub (jsToLower s) "todo:"

/-- `line.match(/^(#{3,6})\s+(.+)$/)`: level and raw title capture of a
sub-chapter heading.  A run of more than six hashes cannot match (the
character after the hashes taken by `#{3,6}` would again be `#`). -/
def subHeading36Match? (line : String) : Option (Nat × String) :=
  let cs := line.toList
  let hashes := cs.takeWhile (· = '#')
  if 3 ≤ hashes.length && hashes.length ≤ 6 then
    (headingTailCapture? (cs.drop hashes.length)).map
      (fun g => (hashes.length, String.mk g))
  else none

/-- `Subsection` of `renderer.ts`. -/
structure Subsection where
  title : String
  level : Nat
  content : String
  isComplete : Bool
deriving DecidableEq

/-- Closing a sub-chapter: join and trim its lines, mark complete iff no
`TODO:` marker occurs. -/
def mkSubsection (title : String) (level : Nat) (contentLines : List String) :
    Subsection :=
  let c := jsTrim (joinLines contentLines)
  { title := title, level := level, content := c, isComplete := !containsTodo c }

/-- The `parseSubsections` scan. -/
def parseSubsGo : List String → Option (String × Nat × List String) → List Subsection
  | [], cur =>
    match cur with
    | some (t, lv, cls) => [mkSubsection t lv cls]
    | none => []
  | line :: rest, cur =>
    match subHeading36Match? line with
    | some lvg =>
      (match cur with
       | some (t, lv, cls) => [mkSubsection t lv cls]
       | none => []) ++ parseSubsGo rest (some (jsTrim lvg.2, lvg.1, []))
    | none =>
      match cur with
      | some (t, lv, cls) => parseSubsGo rest (some (t, lv, cls ++ [line]))
      | none => parseSubsGo rest none

/-- `parseSubsections(content)` of `renderer.ts`. -/
def parseSubsections (content : String) : List Subsection :=
  parseSubsGo (jsSplit content '\n') none

/-- `/^\s*\|.*\|\s*$/.test(line)`: the line, ignoring outer whitespace,
starts and ends with a pipe (with at least two pipes). -/
def isTableLine (line : String) : Bool :=
  let core := jsTrimList line.toList
  2 ≤ core.length && core.head? = some '|' && core.getLast? = some '|'

/-- The table-line collection loop of the basic-info path: the first maximal
run of table lines (lines before it are skipped; the run ends at the first
non-table line after it). -/
def collectTableLines : List String → Bool → List String
  | [], _ => []
  | l :: ls, inTable =>
    if isTableLine l then l :: collectTableLines ls true
    else if inTable then []
    else collectTableLines ls false

/-- `line.split('|').slice(1, -1).map(cell => cell.trim())`. -/
def tableRowCells (line : String) : List String :=
  (((jsSplit line '|').drop 1).dropLast).map jsTrim

/-- `/^:?-{3,}:?$/.test(cell)`: a separator cell. -/
def isSepCell (cell : String) : Bool :=
  let cs := cell.toList
  let cs1 := match cs with
    | ':' :: r => r
    | _ => cs
  let dashes := cs1.takeWhile (· = '-')
  3 ≤ dashes.length &&
    (match cs1.drop dashes.length with
     | [] => true
     | [c] => c = ':'
     | _ => false)

/-- `isSeparatorRow` of the basic-info path. -/
def isSeparatorRow (cells : List String) : Bool :=
  0 < cells.length && cells.all isSepCell

/-- Drop header and separator rows, keeping only data rows. -/
def tableDataRows (rows : List (List String)) : List (List String) :=
  if 2 ≤ rows.length && isSeparatorRow (rows.getD 1 []) then rows.drop 2 else rows

/-- The data rows of the leading table of a (trimmed) stage content. -/
def basicInfoDataRows (content : String) : List (List String) :=
  tableDataRows ((collectTableLines (jsSplit content '\n') false).map tableRowCells)

/-- A data row is complete iff non-empty and every cell is non-blank and
`TODO:`-free. -/
def rowComplete (row : List String) : Bool :=
  0 < row.length && row.all (fun cell => jsTrim cell ≠ "" && !containsTodo cell)

/-- The per-table TODO collection: every empty or `TODO:`-marked cell (the
first cell included) becomes `{location: "<item> - <column>", text}`. -/
def tableTodos (dataRows : List (List String)) : List (String × String) :=
  dataRows.flatMap fun row =>
    let itemName := row.headD "Item"
    row.enum.filterMap fun p =>
      let colName := ["Details", "Note"].getD p.1 ("Col" ++ toString (p.1 + 1))
      let isEmptyCell := jsTrim p.2 = ""
      let hasTodo := containsTodo p.2
      if isEmptyCell || hasTodo then
        some (itemName ++ " - " ++ colName, if isEmptyCell then "<empty>" else p.2)
      else none

/-- TODO lines of incomplete subsections. -/
def subsectionTodos (stageTitle : String) (subs : List Subsection) :
    List (String × String) :=
  subs.flatMap fun sub =>
    if sub.isComplete then []
    else (jsSplit sub.content '\n').filterMap fun l =>
      if containsTodo l then some (stageTitle ++ " - " ++ sub.title, jsTrim l)
      else none

/-- TODO lines of a stage without subsections. -/
def contentTodos (stageTitle : String) (content : String) : List (String × String) :=
  (jsSplit content '\n').filterMap fun l =>
    if containsTodo l then some (stageTitle, jsTrim l) else none

/-! ### Placeholder detection (`isPlaceholderValue`) -/

/-- Chinese placeholder role nouns. -/
def chinesePlaceholders : List String :=
  ["研究者名称", "研究机构/公司", "开发者名称", "研究者", "机构", "公司", "开发者"]

/-- Placeholder link texts. -/
def placeholderLinkTexts : List String :=
  ["username", "XXX", "commit_sha", "commit", "sha", "研究者名称", "开发者名称",
   "研究机构/公司", "研究者", "机构", "公司", "开发者", "vX.X.X", "vX.Y.Z",
   "SA-XXXX", "def5678", "abc1234"]

/-- `/^\d{4}-\d{2}-\d{2}$/.test(s)`. -/
def matchesStrictYmd (s : String) : Bool :=
  match s.toList with
  | [a, b, c, d, '-', e, f, '-', g, h] => [a, b, c, d, e, f, g, h].all Char.isDigit
  | _ => false

/-- One of the letters `X`, `Y`, `Z` in either case. -/
def isXyzChar (c : Char) : Bool :=
  c = 'X' || c = 'x' || c = 'Y' || c = 'y' || c = 'Z' || c = 'z'

/-- `([XxYyZz]|\d+)`: a single placeholder letter or a digit run. -/
def isVersionPart (p : String) : Bool :=
  (p.toList.length = 1 && p.toList.all isXyzChar) ||
  (p.toList ≠ [] && p.toList.all Char.isDigit)

/-- `/^v[XxYyZz]\.([XxYyZz]|\d+)\.([XxYyZz]|\d+)$/i.test(s)`: the pattern
has no dots inside its parts, so it is equivalent to a three-way split. -/
def isVersionPlaceholder (s : String) : Bool :=
  match jsSplit s '.' with
  | [p0, p1, p2] =>
    (match p0.toList with
     | [v, c] => (v = 'v' || v = 'V') && isXyzChar c
     | _ => false) && isVersionPart p1 && isVersionPart p2
  | _ => false

/-- `/^(SA|CVE|CWE)-[Xx]{2,}$/i.test(s)`. -/
def isIdPlaceholder (s : String) : Bool :=
  let ls := jsToLower s
  let check := fun (pre : String) =>
    jsStartsWith ls pre &&
      (let rest := ls.toList.drop pre.length
       2 ≤ rest.length && rest.all (· = 'x'))
  check "sa-" || check "cve-" || check "cwe-"

/-- `/^[a-f0-9]{6,8}$/i.test(s)` combined with the `def`/`abc`/`commit_sha`
checks of the commit-hash placeholder rule. -/
def isHexPlaceholder (s : String) : Bool :=
  let cs := s.toList
  let isHexChar := fun (c : Char) => c.isDigit || ('a' ≤ c.toLower && c.toLower ≤ 'f')
  (6 ≤ cs.length && cs.length ≤ 8 && cs.all isHexChar) &&
    (jsStartsWith (jsToLower s) "def" || jsStartsWith (jsToLower s) "abc" ||
      jsToLower s = "commit_sha")

/-- `isPlaceholderValue(value)` of `calculateStageCompletion`. -/
def isPlaceholderValue (value : String) : Bool :=
  let trimmed := jsTrim value
  if trimmed = "" then true
  else if containsSub trimmed "需要修改" || containsSub trimmed "待填写" ||
      containsSub trimmed "待完成" || containsSub trimmed "待处理" ||
      containsSub trimmed "TBD" || containsSub trimmed "N/A" ||
      trimmed = "..." then true
  else if chinesePlaceholders.any
      (fun p => trimmed = p || containsSub trimmed p) then true
  else if jsToLower trimmed = "yyyy-mm-dd" ||
      (matchesStrictYmd trimmed && jsStartsWith trimmed "2000-01-01") then true
  else if isVersionPlaceholder trimmed then true
  else if isIdPlaceholder trimmed then true
  else if containsSub trimmed "example.com" || containsSub trimmed "example.org" then
    true
  else if isHexPlaceholder trimmed then true
  else
    match parseMarkdownLink? trimmed with
    | some lk =>
      let normText := jsToLower (jsTrim lk.1)
      if placeholderLinkTexts.any (fun p =>
          let np := jsToLower p
          normText = np || normText = "@" ++ np || normText = "#" ++ np ||
            containsSub normText np) then true
      else
        let nurl := jsToLower (jsTrim lk.2)
        containsSub nurl "/username" || containsSub nurl "/xxx" ||
          containsSub nurl "/commit_sha" || containsSub nurl "/commit/commit" ||
          containsSub nurl "/pull/xxx" || containsSub nurl "/org/repo" ||
          containsSub nurl "example.com" || containsSub nurl "example.org"
    | none => false

/-! ### `calculateStageCompletion` -/

/-- The `details` record of a `StageCompletion`. -/
structure CompletionDetails where
  totalSubsections : Nat
  completedSubsections : Nat
  metadataScore : Nat
deriving DecidableEq

/-- `StageCompletion` of `renderer.ts` (todos as `(location, text)` pairs). -/
structure StageCompletion where
  stageNum : Nat
  title : String
  completion : Nat
  hasContent : Bool
  hasMetadata : Bool
  metadataComplete : Bool
  subsections : List Subsection
  todos : List (String × String)
  details : CompletionDetails
deriving DecidableEq

/-- The metadata-bonus block of `calculateStageCompletion`:
`(metadataScore, hasMetadata, metadataComplete)`. -/
def metadataStats (stage : LifecycleStage) (isBasicInfoStage : Bool) :
    Nat × Bool × Bool :=
  match stage.metadata with
  | some m =>
    if !isBasicInfoStage && 0 < m.items.length then
      let totalItems := m.items.length
      let completeItems :=
        (m.items.filter (fun i => !isPlaceholderValue i.value)).length
      (jsRoundDiv (20 * completeItems) (max totalItems 1),
       0 < completeItems,
       completeItems = totalItems && 0 < totalItems)
    else (0, false, false)
  | none => (0, false, false)

/-- The content-score block of `calculateStageCompletion`:
`(completion, totalSubsections, completedSubsections, todos)` before the
metadata bonus.  The three paths are: basic-info leading table, subsection
count, and the whole-content binary check. -/
def contentCompletionStats (stage : LifecycleStage) (content : String)
    (hasContent isBasicInfoStage : Bool) (subsections : List Subsection) :
    Nat × Nat × Nat × List (String × String) :=
  let dataRows := basicInfoDataRows content
  if isBasicInfoStage && hasContent && 0 < dataRows.length then
    let totalSubsections := dataRows.length
    let completedSubsections := (dataRows.filter rowComplete).length
    (jsRoundDiv (100 * completedSubsections) totalSubsections,
     totalSubsections, completedSubsections, tableTodos dataRows)
  else if 0 < subsections.length then
    let totalSubsections := subsections.length
    let completedSubsections := (subsections.filter (·.isComplete)).length
    ((if 0 < totalSubsections then
        jsRoundDiv (100 * completedSubsections) totalSubsections
      else 0),
     totalSubsections, completedSubsections,
     subsectionTodos stage.title subsections)
  else if hasContent then
    (if containsTodo content then 0 else 100, 0, 0,
     if containsTodo content then contentTodos stage.title content else [])
  else (0, 0, 0, [])

/-- `calculateStageCompletion(stage)` of `renderer.ts`. -/
def calculateStageCompletion (stage : LifecycleStage) : StageCompletion :=
  let content := jsTrim stage.content
  let hasContent := 0 < content.length && content ≠ "暂无内容"
  let isBasicInfoStage :=
    stage.stageNum = some 1 || containsSub stage.title "基本信息"
  let subsections := parseSubsections content
  let cs := contentCompletionStats stage content hasContent isBasicInfoStage subsections
  let ms := metadataStats stage isBasicInfoStage
  { stageNum := stage.stageNum.getD 0
    title := stage.title
    completion := min 100 (cs.1 + ms.1)
    hasContent := hasContent
    hasMetadata := ms.2.1
    metadataComplete := ms.2.2
    subsections := subsections
    todos := cs.2.2.2
    details := { totalSubsections := cs.2.1, completedSubsections := cs.2.2.1
                 metadataScore := ms.1 } }

/-! ### `renderCompletionView` score computation -/

/-- The zero `StageCompletion` used for a canonical stage number with no
recognised stage in the document. -/
def defaultStageCompletion (i : Nat) : StageCompletion :=
  { stageNum := i
    title := (((STAGE_KEYWORDS.find? (fun kv => kv.2 = i)).map (·.1)).getD
      ("阶段 " ++ toString i))
    completion := 0
    hasContent := false
    hasMetadata := false
    metadataComplete := false
    subsections := []
    todos := []
    details := { totalSubsections := 0, completedSubsections := 0, metadataScore := 0 } }

/-- The `allStages` list of `renderCompletionView`: the completion of the
first recognised stage for each canonical number 1..9, or the zero default. -/
def completionAllStages (stages : List LifecycleStage) : List StageCompletion :=
  let completions :=
    (stages.filter (fun s => s.stageNum ≠ none)).map calculateStageCompletion
  (List.range' 1 9).map fun i =>
    match completions.find? (fun c => c.stageNum = i) with
    | some c => c
    | none => defaultStageCompletion i

/-- The overall completion percentage computed (and displayed) by
`renderCompletionView`. -/
def completionOverall (markdown : String) : Nat :=
  let allStages := completionAllStages (parseLifecycleStages markdown)
  jsRoundDiv (allStages.map (·.completion)).sum allStages.length

/-- Specification-side canonical stage completion: the completion of the
first stage with canonical number `i`, or 0 when the document has none. -/
def canonicalStageCompletion (stages : List LifecycleStage) (i : Nat) : Nat :=
  match stages.find? (fun s => s.stageNum = some i) with
  | some s => (calculateStageCompletion s).completion
  | none => 0

theorem calculateStageCompletion_stageNum (s : LifecycleStage) :
    (calculateStageCompletion s).stageNum = s.stageNum.getD 0 := rfl

theorem find_completion_eq_find_stage (stages : List LifecycleStage) (i : Nat) :
    ((stages.filter (fun s => s.stageNum ≠ none)).map
        calculateStageCompletion).find? (fun c => c.stageNum = i) =
      (stages.find? (fun s => s.stageNum = some i)).map calculateStageCompletion := by
  induction stages with
  | nil => rfl
  | cons s tl ih =>
    cases hn : s.stageNum with
    | none =>
      have h1 : ¬(s.stageNum = some i) := by rw [hn]; exact fun h => by cases h
      simp only [List.filter_cons, hn]
      rw [List.find?_cons_of_neg _ (by simp [hn])]
      simpa using ih
    | some m =>
      by_cases hm : m = i
      · subst hm
        simp only [List.filter_cons, hn]
        rw [show (decide (some m ≠ none)) = true by simp, if_pos rfl]
        simp only [List.map_cons]
        rw [List.find?_cons_of_pos _ (by
          simp [calculateStageCompletion_stageNum, hn])]
        rw [List.find?_cons_of_pos _ (by simp [hn])]
        rfl
      · simp only [List.filter_cons, hn]
        rw [show (decide (some m ≠ none)) = true by simp, if_pos rfl]
        simp only [List.map_cons]
        rw [List.find?_cons_of_neg _ (by
          simp [calculateStageCompletion_stageNum, hn, hm])]
        rw [List.find?_cons_of_neg _ (by simp [hn, hm])]
        exact ih

/-- **C7.** The overall completion shown by the completion view is the
rounded arithmetic mean of exactly the nine canonical stage completions
(numbers 1..9), each canonical number with no recognised stage in the
document contributing 0. -/
theorem completionOverall_is_canonical_mean (markdown : String) :
    completionOverall markdown =
      jsRoundDiv (((List.range' 1 9).map
        (canonicalStageCompletion (parseLifecycleStages markdown))).sum) 9 := by
  rw [completionOverall]
  have hlen : (completionAllStages (parseLifecycleStages markdown)).length = 9 := by
    rw [completionAllStages]
    simp
  have hmap : (completionAllStages (parseLifecycleStages markdown)).map (·.completion) =
      (List.range' 1 9).map (canonicalStageCompletion (parseLifecycleStages markdown)) := by
    rw [completionAllStages]
    rw [List.map_map]
    apply List.map_congr_left
    intro i _
    simp only [Function.comp]
    rw [find_completion_eq_find_stage]
    rw [canonicalStageCompletion]
    cases hf : (parseLifecycleStages markdown).find? (fun s => s.stageNum = some i) with
    | none => simp [defaultStageCompletion]
    | some s => simp
  rw [hmap, hlen]

/-- **C9.** Every stage completion lies between 0 and 100 inclusive, and the
metadata bonus `round(20·real/total)` added before the `min 100` cap never
exceeds 20. -/
theorem stageCompletion_bounds (stage : LifecycleStage) :
    0 ≤ (calculateStageCompletion stage).completion ∧
    (calculateStageCompletion stage).completion ≤ 100 ∧
    (calculateStageCompletion stage).details.metadataScore ≤ 20 := by
  refine ⟨Nat.zero_le _, Nat.min_le_left _ _, ?_⟩
  show (metadataStats stage _).1 ≤ 20
  rw [metadataStats]
  cases stage.metadata with
  | none => exact Nat.zero_le _
  | some m =>
    by_cases h : (!(stage.stageNum = some 1 || containsSub stage.title "基本信息") &&
        0 < m.items.length) = true
    · simp only [h, if_true]
      have hle : (m.items.filter (fun i => !isPlaceholderValue i.value)).length ≤
          m.items.length := List.length_filter_le _ _
      have hmax : m.items.length ≤ max m.items.length 1 := Nat.le_max_left _ _
      have hone : 1 ≤ max m.items.length 1 := Nat.le_max_right _ _
      rw [jsRoundDiv]
      have hlt : (2 * (20 * (m.items.filter (fun i => !isPlaceholderValue i.value)).length)
          + max m.items.length 1) / (2 * max m.items.length 1) < 21 :=
        (Nat.div_lt_iff_lt_mul (by omega)).mpr (by omega)
      omega
    · simp only [h, if_false]
      exact Nat.zero_le _

/-- **C8.** A basic-info stage whose trimmed content carries a leading table
with exactly 3 data rows of which exactly 2 are fully filled (non-empty,
`TODO:`-free cells) scores `round(100·2/3) = 67`. -/
theorem basicInfo_table_two_of_three (stage : LifecycleStage)
    (hnum : stage.stageNum = some 1)
    (hlen : 0 < (jsTrim stage.content).length)
    (hne : jsTrim stage.content ≠ "暂无内容")
    (hrows : (basicInfoDataRows (jsTrim stage.content)).length = 3)
    (hcomp : ((basicInfoDataRows (jsTrim stage.content)).filter rowComplete).length = 2) :
    (calculateStageCompletion stage).completion = 67 := by
  have hbasic : (stage.stageNum = some 1 ||
      containsSub stage.title "基本信息") = true := by
    simp [hnum]
  have hmeta : (metadataStats stage (stage.stageNum = some 1 ||
      containsSub stage.title "基本信息")).1 = 0 := by
    rw [metadataStats]
    cases stage.metadata with
    | none => rfl
    | some m => simp [hbasic]
  have hhas : (0 < (jsTrim stage.content).length &&
      jsTrim stage.content ≠ "暂无内容") = true := by
    simp [hlen, hne]
  have hcs : (contentCompletionStats stage (jsTrim stage.content)
      (0 < (jsTrim stage.content).length && jsTrim stage.content ≠ "暂无内容")
      (stage.stageNum = some 1 || containsSub stage.title "基本信息")
      (parseSubsections (jsTrim stage.content))).1 = 67 := by
    rw [contentCompletionStats]
    rw [if_pos (by simp [hbasic, hlen, hne, hrows])]
    rw [hrows, hcomp]
    rfl
  show min 100 (_ + _) = 67
  rw [hcs, hmeta]
  omega

/-- Witness for C8: a concrete basic-info stage with a three-row table, two
rows filled, evaluates to 67. -/
theorem basicInfo_table_two_of_three_witness :
    (calculateStageCompletion
      { title := "1. 基本信息", stageNum := some 1,
        content := "| Item | Details |\n| --- | --- |\n| A | ok |\n| B | ok |\n| C | TODO: x |",
        metadata := none, headings := [], startLine := none }).completion = 67 :=
  basicInfo_table_two_of_three _ rfl (by decide) (by decide) (by decide) (by decide)

/-! ## Renderer string helpers (`renderer.ts`) -/

/-- `escapeHtml(text)`: the `textContent`/`innerHTML` round trip escapes
`&`, `<`, `>` (and serialises NBSP as `&nbsp;`). -/
def escapeHtml (text : String) : String :=
  concatAll (text.toList.map fun c =>
    if c = '&' then "&amp;"
    else if c = '<' then "&lt;"
    else if c = '>' then "&gt;"
    else if c = ' ' then "&nbsp;"
    else String.mk [c])

/-- The metadata link anchor markup shared by the value renderers. -/
def mdLinkAnchor (url text : String) : String :=
  "<a class=\"metadata-value metadata-link\" href=\"" ++ escapeHtml url ++
    "\" target=\"_blank\" rel=\"noopener noreferrer\">" ++ escapeHtml text ++ "</a>"

/-- Does the global pattern `\[([^\]]+)\]\(([^)]+)\)` match anywhere? -/
def hasMdLinkGo : Nat → List Char → Bool
  | 0, _ => false
  | _ + 1, [] => false
  | fuel + 1, c :: rest =>
    if c = '[' then
      let txt := rest.takeWhile (· ≠ ']')
      (if txt ≠ [] then
        match rest.drop txt.length with
        | ']' :: '(' :: r3 =>
          let url := r3.takeWhile (· ≠ ')')
          if url ≠ [] then
            match r3.drop url.length with
            | ')' :: _ => true
            | _ => hasMdLinkGo fuel rest
          else hasMdLinkGo fuel rest
        | _ => hasMdLinkGo fuel rest
      else hasMdLinkGo fuel rest)
    else hasMdLinkGo fuel rest

/-- Mixed rendering of `renderValueWithMarkdownLinks`: escaped plain text
interleaved with anchors for each non-overlapping link match. -/
def mixedLinksGo : Nat → List Char → String
  | 0, l => escapeHtml (String.mk l)
  | _ + 1, [] => ""
  | fuel + 1, c :: rest =>
    if c = '[' then
      let txt := rest.takeWhile (· ≠ ']')
      (if txt ≠ [] then
        match rest.drop txt.length with
        | ']' :: '(' :: r3 =>
          let url := r3.takeWhile (· ≠ ')')
          if url ≠ [] then
            match r3.drop url.length with
            | ')' :: r5 =>
              mdLinkAnchor (String.mk url) (String.mk txt) ++ mixedLinksGo fuel r5
            | _ => escapeHtml (String.mk [c]) ++ mixedLinksGo fuel rest
          else escapeHtml (String.mk [c]) ++ mixedLinksGo fuel rest
        | _ => escapeHtml (String.mk [c]) ++ mixedLinksGo fuel rest
      else escapeHtml (String.mk [c]) ++ mixedLinksGo fuel rest)
    else escapeHtml (String.mk [c]) ++ mixedLinksGo fuel rest

/-- `renderValueWithMarkdownLinks(value)` of `renderer.ts`. -/
def renderValueWithMarkdownLinks (value : String) : String :=
  match parseMarkdownLink? value with
  | some lk => mdLinkAnchor lk.2 lk.1
  | none =>
    if !hasMdLinkGo value.length.succ value.toList then
      if jsStartsWith value "http" || containsSub value "://" then
        mdLinkAnchor value value
      else "<span class=\"metadata-value\">" ++ escapeHtml value ++ "</span>"
    else
      "<span class=\"metadata-value\">" ++
        mixedLinksGo value.length.succ value.toList ++ "</span>"

/-- CSS name of a metadata type. -/
def metaTypeName : MetaType → String
  | .time => "time"
  | .person => "person"
  | .version => "version"
  | .link => "link"
  | .text => "text"

/-- One metadata item of `renderMetadataHtml` (`renderer.ts` version, with
the `metadata-item-first` class on the first item). -/
def renderMetadataItemHtml (idx : Nat) (item : MetadataItem) : String :=
  let itemClass := "metadata-item metadata-" ++ metaTypeName item.type ++ "-item" ++
    (if idx = 0 then " metadata-item-first" else "")
  "<div class=\"" ++ itemClass ++ "\">" ++
    (match item.icon with
     | some ic => "<span class=\"metadata-icon\">" ++ ic ++ "</span>"
     | none => "") ++
    "<span class=\"metadata-label\">" ++ escapeHtml item.label ++ "</span>" ++
    renderValueWithMarkdownLinks item.value ++ "</div>"

/-- `renderMetadataHtml(metadata, maxItems = 5)` of `renderer.ts` (original
input order, first `maxItems` items). -/
def renderMetadataHtml (metadata : Option StageMetadata) (maxItems : Nat) : String :=
  match metadata with
  | none => ""
  | some md =>
    if md.items.length = 0 then ""
    else
      "<div class=\"stage-metadata\">" ++
        concatAll ((md.items.take maxItems).enum.map fun p =>
          renderMetadataItemHtml p.1 p.2) ++
      "</div>"

/-- The 未指定 vertical marker markup. -/
def unknownMarkerHtml : String :=
  "<div class=\"timeline-date-label timeline-date-unknown\"><div class=\"unknown-column\">" ++
    concatAll ("未指定".toList.map fun ch =>
      "<span class=\"unknown-char\">" ++ escapeHtml (String.mk [ch]) ++ "</span>") ++
    "</div></div>"

/-- `renderTimelineMarkerHtml(timeNode, isBasicInfoOnly)` of `renderer.ts`.
Note the truthiness check: a timestamp of exactly 0 renders no date. -/
def renderTimelineMarkerHtml (tn : TimeNode) (isBasicInfoOnly : Bool) : String :=
  match tn.timestamp with
  | some t =>
    if t ≠ 0 then "<div class=\"timeline-date-label\">" ++ formatDate t ++ "</div>"
    else if !isBasicInfoOnly then unknownMarkerHtml
    else ""
  | none =>
    if !isBasicInfoOnly then unknownMarkerHtml
    else ""

/-! ### `extractSummary` (`renderer.ts`)

The summary strips Markdown markup with a chain of global regex
replacements; each replacement is implemented as a fuel-bounded left-to-right
scanner with the regex's exact matching rules (the fuel, initialised to the
input length plus one, is an upper bound on the scan steps since every step
consumes at least one character). -/

/-- Skip to just past the first occurrence of `close`; `none` if absent. -/
def dropThroughClose (close : List Char) : List Char → Option (List Char)
  | [] => if close = [] then some [] else none
  | c :: rest =>
    if close <+: (c :: rest) then some ((c :: rest).drop close.length)
    else dropThroughClose close rest

/-- Global removal of `opn [\s\S]*? close` (lazy body): used for the two
comment-stripping replacements. -/
def removeDelimitedGo (opn close : List Char) : Nat → List Char → List Char
  | 0, l => l
  | _ + 1, [] => []
  | fuel + 1, c :: rest =>
    if opn <+: (c :: rest) then
      match dropThroughClose close ((c :: rest).drop opn.length) with
      | some suffix => removeDelimitedGo opn close fuel suffix
      | none => c :: rest
    else c :: removeDelimitedGo opn close fuel rest

/-- `/^#{1,6}\s+/gm`-replacement by `''`: at each original line start, strip
a 1–6 hash run followed by a whitespace run (which `\s+` may extend across
newlines). -/
def stripHeadMarksGo : Nat → Bool → List Char → List Char
  | 0, _, l => l
  | _ + 1, _, [] => []
  | fuel + 1, atStart, c :: rest =>
    if atStart then
      let hashes := (c :: rest).takeWhile (· = '#')
      let n := hashes.length
      let after := (c :: rest).drop n
      let ws := after.takeWhile isJsSpace
      if 1 ≤ n && n ≤ 6 && 1 ≤ ws.length then
        stripHeadMarksGo fuel (ws.getLast? = some '\n') (after.drop ws.length)
      else c :: stripHeadMarksGo fuel (c = '\n') rest
    else c :: stripHeadMarksGo fuel (c = '\n') rest

/-- `\[([^\]]+)\]\(([^)]+)\)/g` → `$1`. -/
def replaceLinksGo : Nat → List Char → List Char
  | 0, l => l
  | _ + 1, [] => []
  | fuel + 1, c :: rest =>
    if c = '[' then
      let txt := rest.takeWhile (· ≠ ']')
      (if txt ≠ [] then
        match rest.drop txt.length with
        | ']' :: '(' :: r3 =>
          let url := r3.takeWhile (· ≠ ')')
          if url ≠ [] then
            match r3.drop url.length with
            | ')' :: r5 => txt ++ replaceLinksGo fuel r5
            | _ => c :: replaceLinksGo fuel rest
          else c :: replaceLinksGo fuel rest
        | _ => c :: replaceLinksGo fuel rest
      else c :: replaceLinksGo fuel rest)
    else c :: replaceLinksGo fuel rest

/-- `d([^d]+)d/g` → `$1` for a one-character delimiter `d` (inline code and
italic replacements). -/
def replaceWrapped1Go (d : Char) : Nat → List Char → List Char
  | 0, l => l
  | _ + 1, [] => []
  | fuel + 1, c :: rest =>
    if c = d then
      let inner := rest.takeWhile (· ≠ d)
      (if inner ≠ [] then
        match rest.drop inner.length with
        | c2 :: r2 =>
          if c2 = d then inner ++ replaceWrapped1Go d fuel r2
          else c :: replaceWrapped1Go d fuel rest
        | [] => c :: replaceWrapped1Go d fuel rest
      else c :: replaceWrapped1Go d fuel rest)
    else c :: replaceWrapped1Go d fuel rest

/-- `\*\*([^*]+)\*\*/g` → `$1` (bold). -/
def replaceBoldGo : Nat → List Char → List Char
  | 0, l => l
  | _ + 1, [] => []
  | fuel + 1, c :: rest =>
    match c, rest with
    | '*', '*' :: r2 =>
      let inner := r2.takeWhile (· ≠ '*')
      (if inner ≠ [] then
        match r2.drop inner.length with
        | '*' :: '*' :: r3 => inner ++ replaceBoldGo fuel r3
        | _ => c :: replaceBoldGo fuel rest
      else c :: replaceBoldGo fuel rest)
    | _, _ => c :: replaceBoldGo fuel rest

/-- `^\s*[-*+]\s+/gm` → `''`: at each original line start, a whitespace run
(possibly crossing newlines), one bullet character, and a non-empty
whitespace run. -/
def stripListMarksGo : Nat → Bool → List Char → List Char
  | 0, _, l => l
  | _ + 1, _, [] => []
  | fuel + 1, atStart, c :: rest =>
    if atStart then
      let ws := (c :: rest).takeWhile isJsSpace
      let after := (c :: rest).drop ws.length
      match after with
      | b :: r2 =>
        if (b = '-' || b = '*' || b = '+') then
          let ws2 := r2.takeWhile isJsSpace
          if 1 ≤ ws2.length then
            stripListMarksGo fuel (ws2.getLast? = some '\n') (r2.drop ws2.length)
          else c :: stripListMarksGo fuel (c = '\n') rest
        else c :: stripListMarksGo fuel (c = '\n') rest
      | [] => c :: stripListMarksGo fuel (c = '\n') rest
    else c :: stripListMarksGo fuel (c = '\n') rest

/-- `^\s*\d+\.\s+/gm` → `''` (ordered-list markers). -/
def stripOrderedMarksGo : Nat → Bool → List Char → List Char
  | 0, _, l => l
  | _ + 1, _, [] => []
  | fuel + 1, atStart, c :: rest =>
    if atStart then
      let ws := (c :: rest).takeWhile isJsSpace
      let after := (c :: rest).drop ws.length
      let digits := after.takeWhile Char.isDigit
      (if 1 ≤ digits.length then
        match after.drop digits.length with
        | '.' :: r2 =>
          let ws2 := r2.takeWhile isJsSpace
          if 1 ≤ ws2.length then
            stripOrderedMarksGo fuel (ws2.getLast? = some '\n') (r2.drop ws2.length)
          else c :: stripOrderedMarksGo fuel (c = '\n') rest
        | _ => c :: stripOrderedMarksGo fuel (c = '\n') rest
      else c :: stripOrderedMarksGo fuel (c = '\n') rest)
    else c :: stripOrderedMarksGo fuel (c = '\n') rest

/-- `/^<!--[\s\S]*?-->$/.test(t)`. -/
def isHtmlCommentLine (t : String) : Bool :=
  7 ≤ t.length && jsStartsWith t "<!--" && decide ("-->".toList <:+ t.toList)

/-- The escaped variant `/^&lt;!--[\s\S]*?--&gt;$/.test(t)`. -/
def isEscapedCommentLine (t : String) : Bool :=
  13 ≤ t.length && jsStartsWith t "&lt;!--" && decide ("--&gt;".toList <:+ t.toList)

/-- The line filter of `extractSummary`: drop HTML-comment lines and
metadata bullet lines. -/
def summaryKeepLine (line : String) : Bool :=
  let t := jsTrim line
  !(isHtmlCommentLine t || isEscapedCommentLine t || (metaLineMatch? t).isSome)

/-- The `i = 1 .. min(length, 3) - 1` accumulation loop of `extractSummary`
(with break semantics). -/
def summaryAppendLoop (maxLength : Nat) (summary : String) : List String → String
  | [] => summary
  | l :: ls =>
    if (summary ++ " " ++ l).length ≤ maxLength then
      summaryAppendLoop maxLength (summary ++ " " ++ l) ls
    else summary

/-- `extractSummary(content, maxLength)` of `renderer.ts`. -/
def extractSummary (content : String) (maxLength : Nat) : String :=
  if jsTrim content = "" then ""
  else
    let filteredContent := joinLines ((jsSplit content '\n').filter summaryKeepLine)
    let cs0 := filteredContent.toList
    let fuel := cs0.length + 1
    let cs1 := removeDelimitedGo "<!--".toList "-->".toList fuel cs0
    let cs2 := removeDelimitedGo "&lt;!--".toList "--&gt;".toList fuel cs1
    let cs3 := stripHeadMarksGo fuel true cs2
    let cs4 := replaceLinksGo fuel cs3
    let cs5 := replaceWrapped1Go (Char.ofNat 96) fuel cs4
    let cs6 := replaceBoldGo fuel cs5
    let cs7 := replaceWrapped1Go '*' fuel cs6
    let cs8 := stripListMarksGo fuel true cs7
    let cs9 := stripOrderedMarksGo fuel true cs8
    let text := jsTrim (String.mk cs9)
    let textLines := (jsSplit text '\n').filter (fun l => jsTrim l ≠ "")
    match textLines with
    | [] => ""
    | first :: restLines =>
      let summary := summaryAppendLoop maxLength first (restLines.take 2)
      if maxLength < summary.length then
        String.mk (summary.toList.take maxLength) ++ "..."
      else summary

/-! ## Incremental reconciler (`updateLifecycleView`, `renderer.ts`)

The DOM subtree the reconciler touches is modelled structurally: each
queried element becomes an `Option` field (present or not), element text and
inner HTML become strings, and `data-index` / `data-stage-index` attributes
are positional (as produced by `renderLifecycleView`).  The external
Markdown-to-HTML converter and the two DOM-restructuring passes
(`applyHeadingAnchors`, `applyStageSubsectionsWithState` and its state
capture), which operate on parsed HTML trees, are oracle parameters: every
theorem below holds for all of them. -/

/-- The `.stage-number-badge` element. -/
structure BadgeDom where
  text : String
  dataStage : String
deriving DecidableEq

/-- One `.lifecycle-stage` element with the children the reconciler
queries. -/
structure StageElemDom where
  dataStage : String
  badge : Option BadgeDom
  headerTitle : Option String
  hasHeaderLeft : Bool
  anchorLine : Option String
  hasCard : Bool
  headerWithNext : Bool
  metadataHtml : Option String
  summaryText : Option String
  bodyHtml : Option String
deriving DecidableEq

/-- One `.timeline-node-group` element. -/
structure NodeGroupDom where
  dataTimestamp : String
  markerHtml : Option String
  stages : List StageElemDom
deriving DecidableEq

/-- The container passed to `updateLifecycleView`. -/
structure LifecycleContainer where
  hasLifecycleRoot : Bool
  hasTimelineWrapper : Bool
  titleText : Option String
  nodeGroups : List NodeGroupDom
deriving DecidableEq

/-- Oracle bundle for the external collaborators of the reconciler:
`renderMd` is `renderMarkdown` (the configured `marked` instance plus code
block post-processing), `captureStates` reads the expand/collapse state of
`.stage-subsection` elements out of a body, `applySubs` is
`applyStageSubsectionsWithState` and `applyAnchors` is
`applyHeadingAnchors` (keyed by the stage's headings). -/
structure DomOps where
  renderMd : String → String
  captureStates : String → List (String × Bool)
  applySubs : List (String × Bool) → String → String
  applyAnchors : List StageHeading → String → String

/-- The per-stage patch of `updateLifecycleView` (loop body over
`timeNode.stages`).  Returns the element after the mutations applied so far
and whether the patch succeeded (`false` = the `.stage-body` child was
missing, aborting the reconciler after the earlier mutations). -/
def updateStage (D : DomOps) (stage : LifecycleStage) (el : StageElemDom) :
    StageElemDom × Bool :=
  let stageNumStr :=
    match stage.stageNum with
    | some n => toString n
    | none => "?"
  let el := { el with dataStage := stageNumStr }
  let el := { el with badge := el.badge.map (fun _ => ⟨stageNumStr, stageNumStr⟩) }
  let el := { el with headerTitle := el.headerTitle.map (fun _ => stage.title) }
  let el :=
    match stage.startLine with
    | some line =>
      { el with anchorLine :=
        match el.anchorLine with
        | some _ => some (toString line)
        | none => if el.hasHeaderLeft then some (toString line) else none }
    | none => { el with anchorLine := el.anchorLine.map (fun _ => "") }
  match el.bodyHtml with
  | none => (el, false)
  | some bodyHtml =>
    let el :=
      if el.hasCard then
        if (match stage.metadata with
            | some m => 0 < m.items.length
            | none => false) && !(stage.stageNum = some 1) then
          let metadataHtml := renderMetadataHtml stage.metadata 5
          match el.metadataHtml with
          | some _ => { el with metadataHtml := some metadataHtml }
          | none =>
            if el.headerWithNext then { el with metadataHtml := some metadataHtml }
            else el
        else { el with metadataHtml := none }
      else el
    let summary := extractSummary (jsTrim stage.content) 100
    let el :=
      if summary ≠ "" then { el with summaryText := some summary }
      else { el with summaryText := none }
    let states := D.captureStates bodyHtml
    let newBody :=
      if jsTrim stage.content ≠ "" then D.renderMd (jsTrim stage.content)
      else "<p class=\"stage-empty\">暂无内容</p>"
    let newBody := D.applyAnchors stage.headings newBody
    let newBody := D.applySubs states newBody
    ({ el with bodyHtml := some newBody }, true)

/-- The stage loop of one node group: elements are matched positionally
(`data-stage-index`), counts having been checked equal; on abort the
remaining elements keep their previous state. -/
def updateStagesInNode (D : DomOps) :
    List TimeNodeEntry → List StageElemDom → List StageElemDom × Bool
  | [], [] => ([], true)
  | e :: es, el :: els =>
    let r := updateStage D e.stage el
    if r.2 then
      let rest := updateStagesInNode D es els
      (r.1 :: rest.1, rest.2)
    else (r.1 :: els, false)
  | _, els => (els, false)

/-- The per-node patch: `data-timestamp` (truthiness: a 0 timestamp writes
the empty string), marker lookup and rewrite, stage-count check, stage
loop. -/
def updateNode (D : DomOps) (tn : TimeNode) (g : NodeGroupDom) :
    NodeGroupDom × Bool :=
  let isBasicInfoOnly := tn.stages.all (fun s => s.stage.stageNum = some 1)
  let g := { g with dataTimestamp :=
    match tn.timestamp with
    | some t => if t ≠ 0 then toString t else ""
    | none => "" }
  match g.markerHtml with
  | none => (g, false)
  | some _ =>
    let g := { g with markerHtml := some (renderTimelineMarkerHtml tn isBasicInfoOnly) }
    if g.stages.length ≠ tn.stages.length then (g, false)
    else
      let r := updateStagesInNode D tn.stages g.stages
      ({ g with stages := r.1 }, r.2)

/-- The node loop (`data-index` positional); on abort the remaining node
groups keep their previous state. -/
def updateNodes (D : DomOps) :
    List TimeNode → List NodeGroupDom → List NodeGroupDom × Bool
  | [], [] => ([], true)
  | tn :: tns, g :: gs =>
    let r := updateNode D tn g
    if r.2 then
      let rest := updateNodes D tns gs
      (r.1 :: rest.1, rest.2)
    else (r.1 :: gs, false)
  | _, gs => (gs, false)

/-- `updateLifecycleView(markdown, container)` of `renderer.ts`: the
early-return checks, the title patch, the node-count check and the patch
loop, returning the patched-or-abandoned container alongside the boolean
result. -/
def updateLifecycleView (D : DomOps) (markdown : String)
    (c : LifecycleContainer) : Bool × LifecycleContainer :=
  if jsTrim markdown = "" then (false, c)
  else
    let stages := parseLifecycleStages markdown
    if stages.isEmpty then (false, c)
    else if !c.hasLifecycleRoot || !c.hasTimelineWrapper then (false, c)
    else
      let title := extractTitle markdown
      let c := { c with titleText := c.titleText.map (fun _ => title) }
      let timeNodes := groupStagesByTime stages
      if c.nodeGroups.length ≠ timeNodes.length then (false, c)
      else
        let r := updateNodes D timeNodes c.nodeGroups
        (r.2, { c with nodeGroups := r.1 })

/-- Trivial oracle instantiation used by the concrete C2 inputs. -/
def idDomOps : DomOps :=
  { renderMd := fun s => s
    captureStates := fun _ => []
    applySubs := fun _ s => s
    applyAnchors := fun _ s => s }

/-- Concrete markdown for the C2 inputs: one recognised stage, one time
node. -/
def c2Markdown : String := "# New\n## 1. 基本信息\nhello"

/-- Concrete container for the C2 counterexample: the wrapper elements are
present and a title is rendered, but there are no node groups, so the node
count (0) mismatches the newly parsed structure (1). -/
def c2Container : LifecycleContainer :=
  { hasLifecycleRoot := true
    hasTimelineWrapper := true
    titleText := some "Old"
    nodeGroups := [] }

/-- **C2, counterexample.**  The claim "whenever `updateLifecycleView`
returns false the rendered view is left unchanged" is false: on a node-count
mismatch the reconciler has already overwritten the lifecycle title before
it aborts. -/
theorem updateLifecycleView_partial_patch_counterexample :
    (updateLifecycleView idDomOps c2Markdown c2Container).1 = false ∧
    (updateLifecycleView idDomOps c2Markdown c2Container).2 ≠ c2Container := by
  decide

/-- **C2, amended.**  When `updateLifecycleView` aborts on a count mismatch
between the existing `.timeline-node-group` elements and the newly parsed
time nodes, it returns false having already patched exactly the lifecycle
title text (when a title element exists); all other container state is
unchanged, and the caller's full re-render fallback restores consistency. -/
theorem updateLifecycleView_nodeCount_mismatch (D : DomOps) (markdown : String)
    (c : LifecycleContainer)
    (h1 : jsTrim markdown ≠ "")
    (h2 : parseLifecycleStages markdown ≠ [])
    (h3 : c.hasLifecycleRoot = true)
    (h4 : c.hasTimelineWrapper = true)
    (h5 : c.nodeGroups.length ≠
      (groupStagesByTime (parseLifecycleStages markdown)).length) :
    updateLifecycleView D markdown c =
      (false, { c with titleText := c.titleText.map (fun _ => extractTitle markdown) }) := by
  rw [updateLifecycleView]
  rw [if_neg h1]
  have hne : (parseLifecycleStages markdown).isEmpty = false := by
    cases hp : parseLifecycleStages markdown with
    | nil => exact absurd hp h2
    | cons a l => rfl
  simp only [hne, Bool.false_eq_true, if_false, h3, h4, Bool.not_true, Bool.or_self]
  rw [if_pos h5]

/-- Witness for the amended C2 theorem at the concrete inputs. -/
theorem updateLifecycleView_nodeCount_mismatch_witness :
    jsTrim c2Markdown ≠ "" ∧
    updateLifecycleView idDomOps c2Markdown c2Container =
      (false, { c2Container with
        titleText := c2Container.titleText.map (fun _ => extractTitle c2Markdown) }) :=
  ⟨by decide,
   updateLifecycleView_nodeCount_mismatch idDomOps c2Markdown c2Container
     (by decide) (by decide) rfl rfl (by decide)⟩

end VulnCycle
